import Mathlib

/-!
# Verification of the evidence derivation pipeline

Shallow embedding of the derivation core of `scripts/pipeline_all_v2.js`:
event decoders (ERC20 Transfer / Approval logs, revert reasons), the
aggregation accumulators (address profiles, method stats, approval
registry), the allowance-usage linkage, the per-transaction derivation
loop with its end-of-run flush, and the NDJSON shard writer.

Conventions of the embedding:
* JS hex strings that denote byte arrays (topics, log data, trace
  output, calldata) are modelled as `List Nat` of byte values; string
  length tests on `"0x…"` strings are translated to the equivalent
  byte-length tests (`len > 10` chars ⟷ more than 4 bytes).
* JS `BigInt` amounts (accumulated through decimal strings by
  `addBigStr`) are modelled as `Nat`; serialization renders them as
  decimal strings.
* `null`/`undefined` and absent best-effort results are `Option`;
  a thrown-and-caught decode failure is `none`.
* JS `Map` objects (insertion ordered, update-in-place) are modelled
  as association lists with an insert-or-update operation that keeps
  the original position of an existing key.
-/

namespace Pipeline

/-- Big-endian interpretation of a byte list as an unsigned integer;
models `BigInt("0x" + hex)` on the hex rendering of the bytes, and
`hexToBigInt` (which maps absent/`"0x"` data to `0n`). -/
def beBytesToNat (bs : List Nat) : Nat :=
  bs.foldl (fun acc b => acc * 256 + b) 0

/-- Lower-case hex digit for a value below 16. -/
def hexDigitChar (n : Nat) : Char :=
  if n < 10 then Char.ofNat (48 + n) else Char.ofNat (87 + n)

/-- Two lower-case hex characters of one byte. -/
def byteHexChars (b : Nat) : List Char :=
  [hexDigitChar (b / 16 % 16), hexDigitChar (b % 16)]

/-- `"0x"`-prefixed lower-case hex rendering of a byte list, as ethers
produces for topics and addresses. -/
def bytesToHex (bs : List Nat) : String :=
  "0x" ++ String.mk ((bs.map byteHexChars).flatten)

/-- `topicToAddress`: `"0x" + topic.slice(-40)` — the low 20 bytes of a
32-byte topic rendered as an address string.  (`slice(-40)` of a shorter
string returns the whole string, matching `drop (len - 20)` on bytes.) -/
def topicToAddress (topic : List Nat) : String :=
  bytesToHex (topic.drop (topic.length - 20))

/-- Strict UTF-8 decoding of a byte list, rejecting malformed sequences,
overlong encodings, surrogates and out-of-range code points — the
behaviour of ethers' `toUtf8String` with the default (throwing) error
handler, with `none` standing for the thrown error. -/
def utf8Decode : List Nat → Option (List Char)
  | [] => some []
  | b :: rest =>
    if b < 0x80 then
      (utf8Decode rest).map (fun cs => Char.ofNat b :: cs)
    else if b < 0xc0 then none
    else if b < 0xe0 then
      match rest with
      | c1 :: rest2 =>
        if 0x80 ≤ c1 ∧ c1 < 0xc0 then
          let cp := (b - 0xc0) * 64 + (c1 - 0x80)
          if cp < 0x80 then none
          else (utf8Decode rest2).map (fun cs => Char.ofNat cp :: cs)
        else none
      | [] => none
    else if b < 0xf0 then
      match rest with
      | c1 :: c2 :: rest2 =>
        if (0x80 ≤ c1 ∧ c1 < 0xc0) ∧ (0x80 ≤ c2 ∧ c2 < 0xc0) then
          let cp := (b - 0xe0) * 4096 + (c1 - 0x80) * 64 + (c2 - 0x80)
          if cp < 0x800 then none
          else if 0xd800 ≤ cp ∧ cp < 0xe000 then none
          else (utf8Decode rest2).map (fun cs => Char.ofNat cp :: cs)
        else none
      | _ => none
    else if b < 0xf8 then
      match rest with
      | c1 :: c2 :: c3 :: rest2 =>
        if (0x80 ≤ c1 ∧ c1 < 0xc0) ∧ (0x80 ≤ c2 ∧ c2 < 0xc0) ∧
           (0x80 ≤ c3 ∧ c3 < 0xc0) then
          let cp := (b - 0xf0) * 262144 + (c1 - 0x80) * 4096 +
                    (c2 - 0x80) * 64 + (c3 - 0x80)
          if cp < 0x10000 then none
          else if 0x10ffff < cp then none
          else (utf8Decode rest2).map (fun cs => Char.ofNat cp :: cs)
        else none
      | _ => none
    else none

/-- ABI decoding of a single dynamic `string` value, as
`AbiCoder.defaultAbiCoder().decode(["string"], data)` performs it:
read a 32-byte offset word, at that offset a 32-byte length word, then
the (32-byte-aligned) string bytes, then decode them as UTF-8.  Any
out-of-bounds read or invalid UTF-8 throws in ethers; here it is
`none`. -/
def abiDecodeString (data : List Nat) : Option String :=
  if data.length < 32 then none
  else
    let off := beBytesToNat (data.take 32)
    if data.length < off + 32 then none
    else
      let strLen := beBytesToNat ((data.drop off).take 32)
      let rest := data.drop (off + 32)
      if rest.length < 32 * ((strLen + 31) / 32) then none
      else (utf8Decode (rest.take strLen)).map String.mk

/-- Decimal rendering of a `Nat`, as `BigInt.prototype.toString()`
renders amounts and panic codes. -/
def decDigitsAux : Nat → List Char → List Char
  | 0, acc => acc
  | n + 1, acc =>
    decDigitsAux ((n + 1) / 10) (Char.ofNat (48 + (n + 1) % 10) :: acc)
decreasing_by exact Nat.div_lt_self (Nat.succ_pos n) (by omega)

/-- Decimal string of a `Nat` (`BigInt.toString()`), `"0"` for zero. -/
def decimalRepr (n : Nat) : String :=
  if n = 0 then "0" else String.mk (decDigitsAux n [])

/-- JS truthiness of a nullable string: absent and `""` are falsy. -/
def truthyStr : Option String → Bool
  | none => false
  | some s => s.length != 0

/-- `toLowerCase()` on an address string, character by character (the
addresses involved are ASCII hex strings). -/
def lowerStr (s : String) : String := String.mk (s.data.map Char.toLower)

/-- JS truthiness of a nullable number: absent and `0` are falsy
(models `if (ts)` on a `number | null` timestamp). -/
def truthyNum : Option Nat → Bool
  | none => false
  | some n => n != 0

/-- The 4-byte selector of `Error(string)` (`0x08c379a0`). -/
def ERROR_STRING_SELECTOR : List Nat := [0x08, 0xc3, 0x79, 0xa0]

/-- The 4-byte selector of `Panic(uint256)` (`0x4e487b71`). -/
def PANIC_SELECTOR : List Nat := [0x4e, 0x48, 0x7b, 0x71]

/-- The `panicCodes` table of `decodeRevertReason`. -/
def panicCodes (c : Nat) : Option String :=
  if c = 1 then some "ASSERTION_ERROR"
  else if c = 17 then some "ARITHMETIC_OVERFLOW"
  else if c = 18 then some "DIVISION_BY_ZERO"
  else if c = 33 then some "ENUM_CONVERSION_ERROR"
  else if c = 34 then some "INVALID_ENCODING"
  else if c = 65 then some "ARRAY_ALLOCATION_ERROR"
  else if c = 81 then some "MEMORY_ACCESS_ERROR"
  else none

/-- Rendering of the panic reason string:
`` `Panic(${panicCodes[errorCode] || errorCode})` ``. -/
def panicReasonString (c : Nat) : String :=
  "Panic(" ++ ((panicCodes c).getD (decimalRepr c)) ++ ")"

/-- One node of a `callTracer` result tree.  The root node additionally
carries the `output` and `revertReason` fields consumed by
`decodeRevertReason`.  All fields are nullable in the tracer output. -/
inductive CallNode where
  | mk : (fromAddr toAddr callType : Option String) →
         (value : Option Nat) →
         (input : Option (List Nat)) →
         (output : Option (List Nat)) →
         (revertReason : Option String) →
         (calls : List CallNode) → CallNode

def CallNode.fromAddr : CallNode → Option String
  | .mk f _ _ _ _ _ _ _ => f

def CallNode.toAddr : CallNode → Option String
  | .mk _ t _ _ _ _ _ _ => t

def CallNode.callType : CallNode → Option String
  | .mk _ _ ty _ _ _ _ _ => ty

def CallNode.value : CallNode → Option Nat
  | .mk _ _ _ v _ _ _ _ => v

def CallNode.input : CallNode → Option (List Nat)
  | .mk _ _ _ _ i _ _ _ => i

def CallNode.output : CallNode → Option (List Nat)
  | .mk _ _ _ _ _ o _ _ => o

def CallNode.revertReason : CallNode → Option String
  | .mk _ _ _ _ _ _ r _ => r

def CallNode.calls : CallNode → List CallNode
  | .mk _ _ _ _ _ _ _ cs => cs

/-- `decodeRevertReason(trace, rc)`: trace-supplied reason, then
receipt-supplied reason, then `Error(string)` ABI decoding of the trace
output, then `Panic(uint256)` decoding; decode failures are caught and
leave the reason `null`.  The string-length guard `output.length > 10`
on the hex string is more than 4 bytes of output. -/
def decodeRevertReason (trace : Option CallNode)
    (rcRevertReason : Option String) : Option String :=
  if truthyStr (trace.bind CallNode.revertReason) then
    trace.bind CallNode.revertReason
  else if truthyStr rcRevertReason then rcRevertReason
  else
    match trace.bind CallNode.output with
    | none => none
    | some out =>
      if out.take 4 = ERROR_STRING_SELECTOR ∧ 4 < out.length then
        abiDecodeString (out.drop 4)
      else if out.take 4 = PANIC_SELECTOR ∧ 4 < out.length then
        some (panicReasonString (beBytesToNat (out.drop 4)))
      else none

/-- The value of one lower-case hex digit (only digits and `a`–`f`
occur in the topic constants below). -/
def hexCharVal (c : Char) : Nat :=
  if c.isDigit then c.toNat - 48
  else c.toNat - 97 + 10

/-- A hex string read two characters per byte, as the topic hash
constants of the source are written. -/
def hexPairsToBytes : List Char → List Nat
  | c1 :: c2 :: rest =>
    (16 * hexCharVal c1 + hexCharVal c2) :: hexPairsToBytes rest
  | _ => []

/-- `ethers.id("Transfer(address,address,uint256)")`, the source's
`TRANSFER_TOPIC` constant, as its 32-byte denotation. -/
def TRANSFER_TOPIC0 : List Nat :=
  hexPairsToBytes
    "ddf252ad1be2c89b69c2b068fc378daa952ba7f163c4a11628f55a4df523b3ef".data

/-- `ethers.id("Approval(address,address,uint256)")`, the source's
`APPROVAL_TOPIC` constant, as its 32-byte denotation. -/
def APPROVAL_TOPIC0 : List Nat :=
  hexPairsToBytes
    "8c5be1e5ebec7d5bd14f71427d1e84f3dd0314c0f7b2291e5b200ac8c7c3b925".data

/-- Addresses and hashes at the transaction level are the strings ethers
hands out (`tx.from` checksummed, topic-derived addresses lower-case). -/
abbrev Addr := String

/-- One receipt log: emitting contract, topic list (each topic a 32-byte
word), data payload, and `logIndex`.  Topic equality in the source is a
case-insensitive hex-string comparison, which on the byte denotation is
plain equality. -/
structure LogRec where
  address : Addr
  topics : List (List Nat)
  data : List Nat
  logIndex : Nat
deriving DecidableEq, Repr

/-- A decoded transfer-shaped log (the `transfers` entries of the
ERC20 TRANSFER EVENTS block). -/
structure TransferDec where
  fromAddr : Addr
  toAddr : Addr
  amount : Nat
  tokenAddr : Addr
  logIndex : Nat
deriving DecidableEq, Repr

/-- The transfer-log recognition of the ERC20 TRANSFER EVENTS block as a
per-log decoder: skip unless the log has at least 3 topics
(`topics.length < 3 → continue`) and topic 0 equals the Transfer
signature hash; addresses from the low 20 bytes of topics 1 and 2, the
amount from the data payload as a big-endian unsigned integer. -/
def decodeTransferLog (lg : LogRec) : Option TransferDec :=
  if lg.topics.length < 3 then none
  else if lg.topics.headD [] ≠ TRANSFER_TOPIC0 then none
  else some
    { fromAddr := topicToAddress (lg.topics.getD 1 [])
      toAddr := topicToAddress (lg.topics.getD 2 [])
      amount := beBytesToNat lg.data
      tokenAddr := lg.address
      logIndex := lg.logIndex }

/-- A decoded approval event (`decodeApprovalEvent` result). -/
structure ApprovalDec where
  owner : Addr
  spender : Addr
  value : Nat
deriving DecidableEq, Repr

/-- `decodeApprovalEvent(log)`: same shape matching against the Approval
signature hash (`topics.length < 3 → null`, topic 0 must match),
owner/spender from topics 1 and 2, value from the data payload. -/
def decodeApprovalEvent (lg : LogRec) : Option ApprovalDec :=
  if lg.topics.length < 3 then none
  else if lg.topics.headD [] ≠ APPROVAL_TOPIC0 then none
  else some
    { owner := topicToAddress (lg.topics.getD 1 [])
      spender := topicToAddress (lg.topics.getD 2 [])
      value := beBytesToNat lg.data }

/-- Everything the derivation loop fetches for one transaction hash:
transaction record, receipt fields, block timestamp (absent when the
block lookup fails), logs, and the best-effort call trace (absent when
`tryCallTrace` gives up). -/
structure TxData where
  txHash : String
  fromAddr : Addr
  toAddr : Option Addr
  value : Nat
  input : List Nat
  gasPrice : Option Nat
  gasUsed : Option Nat
  statusCode : Nat
  blockNumber : Nat
  timestamp : Option Nat
  txIndex : Nat
  logs : List LogRec
  trace : Option CallNode
  rcRevertReason : Option String

/-- `tx.data.slice(0, 10)`: the 4-byte method selector (shorter when the
calldata itself is shorter). -/
def methodIdOf (tx : TxData) : List Nat := tx.input.take 4

/-- The `transferFrom(address,address,uint256)` selector `0x23b872dd`. -/
def TRANSFER_FROM_SELECTOR : List Nat := [0x23, 0xb8, 0x72, 0xdd]

/-- The mutable per-address accumulator created by `getProf`; every
field carries exactly the initializer of the source (`"0"` decimal
strings as 0, empty objects, empty `Set`, `null` first/last bounds). -/
structure Profile where
  address : Addr
  eth_in_wei : Nat := 0
  eth_out_wei : Nat := 0
  eth_in_txs : Nat := 0
  eth_out_txs : Nat := 0
  erc20_in : List (Addr × Nat) := []
  erc20_out : List (Addr × Nat) := []
  tx_out_count : Nat := 0
  tx_in_count : Nat := 0
  gas_spent_wei : Nat := 0
  total_gas_used : Nat := 0
  call_targets : List Addr := []
  first_seen_ts : Option Nat := none
  last_seen_ts : Option Nat := none
  first_seen_block : Option Nat := none
  last_seen_block : Option Nat := none
deriving DecidableEq, Repr

/-- The fresh profile `getProf` installs for an unseen address. -/
def initProfile (a : Addr) : Profile := { address := a }

/-- The per-`(to, method_id)` accumulator created by `getMethodStat`. -/
structure MethodStat where
  toAddr : Addr
  method_id : List Nat
  count : Nat := 0
  success_count : Nat := 0
  revert_count : Nat := 0
  callers : List Addr := []
  first_seen_ts : Option Nat := none
  last_seen_ts : Option Nat := none
deriving DecidableEq, Repr

def initMethodStat (t : Addr) (m : List Nat) : MethodStat :=
  { toAddr := t, method_id := m }

/-- One approval-registry entry:
`approvals.set(key, { amount: value, tx_hash: h })`. -/
structure ApprovalEntry where
  amount : Nat
  txHash : String
deriving DecidableEq, Repr

/-- JS `Set.add`: append if not already present (insertion order). -/
def setAdd (s : List Addr) (a : Addr) : List Addr :=
  if a ∈ s then s else s ++ [a]

/-- JS `Map` lookup on an association list. -/
def alFind {κ β : Type} [DecidableEq κ] (m : List (κ × β)) (k : κ) :
    Option β :=
  match m with
  | [] => none
  | (k1, v) :: rest => if k1 = k then some v else alFind rest k

/-- JS `Map` insert-or-update: an existing key is updated in place
(keeping its position), a new key is appended — exactly the insertion
ordering of `Map.set` / the lazy `getProf` + mutation pattern. -/
def alUpdate {κ β : Type} [DecidableEq κ] (k : κ) (init : β) (f : β → β) :
    List (κ × β) → List (κ × β)
  | [] => [(k, f init)]
  | (k0, v) :: rest =>
    if k0 = k then (k0, f v) :: rest else (k0, v) :: alUpdate k init f rest

/-- The three keyed accumulators the derivation loop threads through:
the address profiles, the method stats (keyed in the source by the
string `` `${to}|${methodId}` ``, equivalently the pair), and the
approval registry keyed by `` `${token}|${owner}|${spender}` ``. -/
structure RunState where
  prof : List (Addr × Profile)
  methodStats : List ((Addr × List Nat) × MethodStat)
  approvals : List ((Addr × Addr × Addr) × ApprovalEntry)

def initRunState : RunState := ⟨[], [], []⟩

/-- `rc.status === 1 ? "success" : "revert"`. -/
def statusString (tx : TxData) : String :=
  if tx.statusCode = 1 then "success" else "revert"

/-- The `tx_enriched` record. -/
structure TxEnriched where
  tx_hash : String
  block_number : Nat
  timestamp : Option Nat
  status : String
  fromAddr : Addr
  toAddr : Option Addr
  value_wei : Nat
  gas_used : Option Nat
  gas_price : Option Nat
  logs_count : Nat
  method_id : List Nat
  tx_index : Nat
deriving DecidableEq, Repr

/-- The `block_tx_order` record. -/
structure BlockTxOrder where
  block_number : Nat
  tx_hash : String
  tx_index : Nat
  timestamp : Option Nat
deriving DecidableEq, Repr

/-- The `contract_call` record (`gas_used` and `effective_gas_price`
already defaulted: `rc.gasUsed`→0, `tx.gasPrice`→1). -/
structure ContractCall where
  tx_hash : String
  fromAddr : Addr
  toAddr : Option Addr
  method_id : List Nat
  status : String
  value_wei : Nat
  gas_used : Nat
  effective_gas_price : Nat
  timestamp : Option Nat
  block_number : Nat
  tx_index : Nat
deriving DecidableEq, Repr

/-- An `asset_transfer` record and its identical-shaped `fund_flow_edge`
projection.  `asset_type` is `"native"` (asset `"ETH"`, amount under the
key `amount_wei`, no log index) or `"erc20"` (asset = token address,
amount under `amount`, with `log_index`). -/
structure AssetTransfer where
  tx_hash : String
  block_number : Nat
  timestamp : Option Nat
  asset_type : String
  asset : String
  fromAddr : Addr
  toAddr : Addr
  amount : Nat
  log_index : Option Nat
deriving DecidableEq, Repr

/-- An `internal_native_transfer` record (from a traced call with
non-zero value). -/
structure InternalNativeTransfer where
  tx_hash : String
  block_number : Nat
  timestamp : Option Nat
  fromAddr : Addr
  toAddr : Addr
  value_wei : Nat
  depth : Nat
  call_type : String
deriving DecidableEq, Repr

/-- A `trace_edge` record (one per traced call node with caller, callee
and call type present). -/
structure TraceEdge where
  tx_hash : String
  block_number : Nat
  timestamp : Option Nat
  caller : Addr
  callee : Addr
  call_type : String
  value : Nat
  input_selector : Option (List Nat)
  depth : Nat
deriving DecidableEq, Repr

/-- A `revert_reason` record. -/
structure RevertReasonDoc where
  tx_hash : String
  reason : Option String
  timestamp : Option Nat
  block_number : Nat
deriving DecidableEq, Repr

/-- An `approval` record (`log_index` is the position of the log in the
receipt's log list, the loop counter of the APPROVALS block). -/
structure ApprovalFactR where
  tx_hash : String
  block_number : Nat
  timestamp : Option Nat
  token : Addr
  owner : Addr
  spender : Addr
  value : Nat
  log_index : Nat
deriving DecidableEq, Repr

/-- An `allowance_edge` record. -/
structure AllowanceEdgeR where
  tx_hash : String
  block_number : Nat
  timestamp : Option Nat
  token : Addr
  fromAddr : Addr
  toAddr : Addr
  amount : Nat
deriving DecidableEq, Repr

/-- An `allowance_usage` record.  Note the source writes the usage
transaction hash under the key `drain_tx_hash`. -/
structure AllowanceUsage where
  token : Addr
  owner : Addr
  spender : Addr
  approved_amount : Nat
  used_amount : Nat
  approval_tx_hash : String
  drain_tx_hash : String
  block_number : Nat
  timestamp : Option Nat
deriving DecidableEq, Repr

/-- A flushed `method_stat` record: the callers set is flushed as its
cardinality (`unique_callers: stat.callers.size`). -/
structure MethodStatFact where
  toAddr : Addr
  method_id : List Nat
  count : Nat
  success_count : Nat
  revert_count : Nat
  unique_callers : Nat
  first_seen_ts : Option Nat
  last_seen_ts : Option Nat
deriving DecidableEq, Repr

/-- One derived fact, tagged by its `doc_type`.  `traceCallDoc` is the
`doc_type: "trace_call"` record written to the trace-edges stream (its
raw trace payload is not inspected by any claim and is omitted).
`addressProfile` carries the flushed profile; its `call_targets` list is
already the insertion-ordered sequence `Array.from` produces. -/
inductive Fact where
  | txEnriched (r : TxEnriched)
  | blockTxOrder (r : BlockTxOrder)
  | contractCall (r : ContractCall)
  | assetTransfer (r : AssetTransfer)
  | fundFlowEdge (r : AssetTransfer)
  | internalNativeTransfer (r : InternalNativeTransfer)
  | traceCallDoc (tx_hash : String) (block_number : Nat)
  | traceEdge (r : TraceEdge)
  | revertReasonDoc (r : RevertReasonDoc)
  | approval (r : ApprovalFactR)
  | allowanceEdge (r : AllowanceEdgeR)
  | allowanceUsage (r : AllowanceUsage)
  | addressProfile (r : Profile)
  | methodStat (r : MethodStatFact)
deriving DecidableEq, Repr

/-- `min`-style bound update (`first_seen` fields): take the value when
the bound is still `null` or the value is smaller. -/
def boundMin (cur : Option Nat) (v : Nat) : Option Nat :=
  match cur with
  | none => some v
  | some c => if v < c then some v else some c

/-- `max`-style bound update (`last_seen` fields). -/
def boundMax (cur : Option Nat) (v : Nat) : Option Nat :=
  match cur with
  | none => some v
  | some c => if c < v then some v else some c

/-- The `if (ts) { … first/last_seen_ts … }` update (skipped when the
timestamp is absent or the falsy `0`). -/
def profTouchTs (ts : Option Nat) (p : Profile) : Profile :=
  match ts with
  | some t =>
    if t ≠ 0 then
      { p with first_seen_ts := boundMin p.first_seen_ts t
               last_seen_ts := boundMax p.last_seen_ts t }
    else p
  | none => p

/-- The unconditional `first/last_seen_block` update. -/
def profTouchBlock (bn : Nat) (p : Profile) : Profile :=
  { p with first_seen_block := boundMin p.first_seen_block bn
           last_seen_block := boundMax p.last_seen_block bn }

/-- `const gasPrice = tx.gasPrice ? BigInt(tx.gasPrice) : 1n` (a falsy
zero also falls back to 1). -/
def gasPriceOf (tx : TxData) : Nat :=
  match tx.gasPrice with
  | some g => if g ≠ 0 then g else 1
  | none => 1

/-- `const gasUsed = rc.gasUsed ? BigInt(rc.gasUsed) : 0n`. -/
def gasUsedOf (tx : TxData) : Nat := tx.gasUsed.getD 0

/-- `gasCostWei = gasUsed * gasPrice`. -/
def gasCostOf (tx : TxData) : Nat := gasUsedOf tx * gasPriceOf tx

/-- `x ? x.toString() : null` on a nullable number field. -/
def truthyOpt (o : Option Nat) : Option Nat :=
  if truthyNum o then o else none

/-- The `tx_enriched` record written for every transaction. -/
def mkTxEnriched (tx : TxData) : TxEnriched :=
  { tx_hash := tx.txHash
    block_number := tx.blockNumber
    timestamp := tx.timestamp
    status := statusString tx
    fromAddr := tx.fromAddr
    toAddr := tx.toAddr
    value_wei := tx.value
    gas_used := truthyOpt tx.gasUsed
    gas_price := truthyOpt tx.gasPrice
    logs_count := tx.logs.length
    method_id := methodIdOf tx
    tx_index := tx.txIndex }

/-- The `block_tx_order` record written for every transaction. -/
def mkBlockTxOrder (tx : TxData) : BlockTxOrder :=
  { block_number := tx.blockNumber
    tx_hash := tx.txHash
    tx_index := tx.txIndex
    timestamp := tx.timestamp }

/-- The `contract_call` record written for every transaction. -/
def mkContractCall (tx : TxData) : ContractCall :=
  { tx_hash := tx.txHash
    fromAddr := tx.fromAddr
    toAddr := tx.toAddr
    method_id := methodIdOf tx
    status := statusString tx
    value_wei := tx.value
    gas_used := gasUsedOf tx
    effective_gas_price := gasPriceOf tx
    timestamp := tx.timestamp
    block_number := tx.blockNumber
    tx_index := tx.txIndex }

/-- The `tx.from` side of the "Update address profile" block:
`tx_out_count`, gas totals, ts bounds (guarded), block bounds. -/
def fromProfUpd (tx : TxData) (p : Profile) : Profile :=
  profTouchBlock tx.blockNumber (profTouchTs tx.timestamp
    { p with tx_out_count := p.tx_out_count + 1
             gas_spent_wei := p.gas_spent_wei + gasCostOf tx
             total_gas_used := p.total_gas_used + gasUsedOf tx })

/-- The `tx.to` side of the "Update address profile" block. -/
def toProfUpd (tx : TxData) (p : Profile) : Profile :=
  profTouchBlock tx.blockNumber (profTouchTs tx.timestamp
    { p with tx_in_count := p.tx_in_count + 1 })

/-- Lines 881–902: touch the sender profile, then (when `tx.to` is
present) the recipient profile. -/
def profileTouchStep (tx : TxData) (st : RunState) : RunState :=
  let st1 := { st with
    prof := alUpdate tx.fromAddr (initProfile tx.fromAddr) (fromProfUpd tx) st.prof }
  match tx.toAddr with
  | some t =>
    { st1 with prof := alUpdate t (initProfile t) (toProfUpd tx) st1.prof }
  | none => st1

/-- The method-stat ts-bounds update (same `if (ts)` guard). -/
def statTouchTs (ts : Option Nat) (s : MethodStat) : MethodStat :=
  match ts with
  | some t =>
    if t ≠ 0 then
      { s with first_seen_ts := boundMin s.first_seen_ts t
               last_seen_ts := boundMax s.last_seen_ts t }
    else s
  | none => s

/-- One `getMethodStat` update: count, success/revert split, caller set,
ts bounds. -/
def statUpd (tx : TxData) (s : MethodStat) : MethodStat :=
  let s1 := { s with count := s.count + 1 }
  let s2 :=
    if statusString tx = "success" then
      { s1 with success_count := s1.success_count + 1 }
    else { s1 with revert_count := s1.revert_count + 1 }
  statTouchTs tx.timestamp { s2 with callers := setAdd s2.callers tx.fromAddr }

/-- Lines 905–915: update the `(to, methodId)` stat when the transaction
has a recipient and a non-empty method id (`methodId !== "0x"`). -/
def methodStatStep (tx : TxData) (st : RunState) : RunState :=
  match tx.toAddr with
  | some t =>
    if methodIdOf tx ≠ [] then
      let ms := alUpdate (t, methodIdOf tx) (initMethodStat t (methodIdOf tx))
        (statUpd tx) st.methodStats
      { st with methodStats := ms }
    else st
  | none => st

/-- The sender-side profile mutation of the ETH TRANSFER block:
`eth_out_wei += value; eth_out_txs += 1; call_targets.add(to)`. -/
def ethOutUpd (v : Nat) (target : Addr) (p : Profile) : Profile :=
  { p with eth_out_wei := p.eth_out_wei + v
           eth_out_txs := p.eth_out_txs + 1
           call_targets := setAdd p.call_targets target }

/-- The recipient-side profile mutation of the ETH TRANSFER block:
`eth_in_wei += value; eth_in_txs += 1`. -/
def ethInUpd (v : Nat) (p : Profile) : Profile :=
  { p with eth_in_wei := p.eth_in_wei + v
           eth_in_txs := p.eth_in_txs + 1 }

/-- The caller-side profile mutation of the trace walk:
`eth_out_wei += val; call_targets.add(to)` (no tx-count bump). -/
def walkOutUpd (v : Nat) (target : Addr) (p : Profile) : Profile :=
  { p with eth_out_wei := p.eth_out_wei + v
           call_targets := setAdd p.call_targets target }

/-- The callee-side profile mutation of the trace walk:
`eth_in_wei += val`. -/
def walkInUpd (v : Nat) (p : Profile) : Profile :=
  { p with eth_in_wei := p.eth_in_wei + v }

/-- The native `asset_transfer` record of the ETH TRANSFER block
(written under `amount_wei`; the `fund_flow_edge` projection repeats the
same data under `amount`). -/
def mkNativeTransfer (tx : TxData) (t : Addr) : AssetTransfer :=
  { tx_hash := tx.txHash
    block_number := tx.blockNumber
    timestamp := tx.timestamp
    asset_type := "native"
    asset := "ETH"
    fromAddr := tx.fromAddr
    toAddr := t
    amount := tx.value
    log_index := none }

/-- The ETH TRANSFER block (lines 918–953): guarded by
`tx.to && tx.value && tx.value > 0n`; emits the native `asset_transfer`
and `fund_flow_edge` facts and bumps `eth_out_wei`/`eth_out_txs`/
`call_targets` of the sender and `eth_in_wei`/`eth_in_txs` of the
recipient.  Note there is no status guard: a reverted transaction still
qualifies. -/
def ethTransferStep (tx : TxData) (st : RunState) : RunState × List Fact :=
  match tx.toAddr with
  | some t =>
    if 0 < tx.value then
      let m1 := alUpdate tx.fromAddr (initProfile tx.fromAddr)
        (ethOutUpd tx.value t) st.prof
      let m2 := alUpdate t (initProfile t) (ethInUpd tx.value) m1
      ({ st with prof := m2 },
       [.assetTransfer (mkNativeTransfer tx t),
        .fundFlowEdge (mkNativeTransfer tx t)])
    else (st, [])
  | none => (st, [])

/-- The decoded transfer-shaped logs of this transaction, in log order
(the `transfers` array reused by the ALLOWANCE USAGE block). -/
def transfersOf (tx : TxData) : List TransferDec :=
  tx.logs.filterMap decodeTransferLog

/-- The `erc20` `asset_transfer` record of one decoded transfer log. -/
def mkErc20Transfer (tx : TxData) (t : TransferDec) : AssetTransfer :=
  { tx_hash := tx.txHash
    block_number := tx.blockNumber
    timestamp := tx.timestamp
    asset_type := "erc20"
    asset := t.tokenAddr
    fromAddr := t.fromAddr
    toAddr := t.toAddr
    amount := t.amount
    log_index := some t.logIndex }

/-- `p.erc20_out[token] = (BigInt(p.erc20_out[token] || "0") + amount)`:
add into a string-keyed object of decimal amounts. -/
def objAdd (m : List (Addr × Nat)) (k : Addr) (v : Nat) : List (Addr × Nat) :=
  alUpdate k 0 (fun x => x + v) m

/-- The sender-side mutation of the ERC20 TRANSFER EVENTS block. -/
def erc20OutUpd (token : Addr) (amt : Nat) (p : Profile) : Profile :=
  { p with erc20_out := objAdd p.erc20_out token amt }

/-- The recipient-side mutation of the ERC20 TRANSFER EVENTS block. -/
def erc20InUpd (token : Addr) (amt : Nat) (p : Profile) : Profile :=
  { p with erc20_in := objAdd p.erc20_in token amt }

/-- The per-transfer profile update of the ERC20 TRANSFER EVENTS block
(sender `erc20_out`, recipient `erc20_in`; the decoded addresses are
always non-null strings, so both branches run). -/
def erc20ProfStep (t : TransferDec) (st : RunState) : RunState :=
  let m1 := alUpdate t.fromAddr (initProfile t.fromAddr)
    (erc20OutUpd t.tokenAddr t.amount) st.prof
  let m2 := alUpdate t.toAddr (initProfile t.toAddr)
    (erc20InUpd t.tokenAddr t.amount) m1
  { st with prof := m2 }

/-- The ERC20 TRANSFER EVENTS block (lines 955–1004): per decoded log,
emit the `erc20` `asset_transfer` and `fund_flow_edge` facts and update
both token totals. -/
def erc20Step (tx : TxData) (st : RunState) : RunState × List Fact :=
  (transfersOf tx).foldl
    (fun acc t =>
      (erc20ProfStep t acc.1,
       acc.2 ++ [.assetTransfer (mkErc20Transfer tx t),
                 .fundFlowEdge (mkErc20Transfer tx t)]))
    (st, [])

/-- The per-node body of `walkTrace(call, depth)`: when caller, callee
and call type are all present, emit a `trace_edge`; when additionally
the call value is positive, emit an `internal_native_transfer` and move
the value between the two eth totals (also registering the callee as a
call target of the caller).  With any of the three fields missing,
nothing happens at this node. -/
def walkNodeStep (tx : TxData) (c : CallNode) (depth : Nat)
    (st : RunState) : RunState × List Fact :=
  match c.fromAddr, c.toAddr, c.callType with
  | some f, some t, some ty =>
    let selector : Option (List Nat) :=
      match c.input with
      | some bytes => if 4 ≤ bytes.length then some (bytes.take 4) else none
      | none => none
    let v := c.value.getD 0
    let edge : Fact := .traceEdge
      { tx_hash := tx.txHash
        block_number := tx.blockNumber
        timestamp := tx.timestamp
        caller := f
        callee := t
        call_type := ty
        value := v
        input_selector := selector
        depth := depth }
    if 0 < v then
      let itf : Fact := .internalNativeTransfer
        { tx_hash := tx.txHash
          block_number := tx.blockNumber
          timestamp := tx.timestamp
          fromAddr := f
          toAddr := t
          value_wei := v
          depth := depth
          call_type := ty }
      let m1 := alUpdate f (initProfile f) (walkOutUpd v t) st.prof
      let m2 := alUpdate t (initProfile t) (walkInUpd v) m1
      ({ st with prof := m2 }, [edge, itf])
    else (st, [edge])
  | _, _, _ => (st, [])

mutual

/-- `walkTrace(call, depth)`: the per-node step, then the children at
`depth + 1` (walked regardless of the per-node guard). -/
def walkNode (tx : TxData) : CallNode → Nat → RunState → RunState × List Fact
  | .mk fromA toA cType val inp out0 rr children, depth, st =>
    let step :=
      walkNodeStep tx (.mk fromA toA cType val inp out0 rr children) depth st
    let rest := walkNodes tx children (depth + 1) step.1
    (rest.1, step.2 ++ rest.2)

/-- The `for (const sub of call.calls) walkTrace(sub, depth + 1)` loop. -/
def walkNodes (tx : TxData) :
    List CallNode → Nat → RunState → RunState × List Fact
  | [], _, st => (st, [])
  | c :: cs, depth, st =>
    let r1 := walkNode tx c depth st
    let r2 := walkNodes tx cs depth r1.1
    (r2.1, r1.2 ++ r2.2)

end

/-- The TRACE EDGES block (lines 1006–1063): nothing at all when the
trace is absent; otherwise the raw `trace_call` document followed by the
walk. -/
def traceStep (tx : TxData) (st : RunState) : RunState × List Fact :=
  match tx.trace with
  | some root =>
    let r := walkNode tx root 0 st
    (r.1, Fact.traceCallDoc tx.txHash tx.blockNumber :: r.2)
  | none => (st, [])

/-- The REVERT REASONS block: one `revert_reason` record for a reverted
transaction, decoded from the same best-effort trace and the receipt. -/
def revertStep (tx : TxData) : List Fact :=
  if statusString tx = "revert" then
    [.revertReasonDoc
      { tx_hash := tx.txHash
        reason := decodeRevertReason tx.trace tx.rcRevertReason
        timestamp := tx.timestamp
        block_number := tx.blockNumber }]
  else []

/-- The registry write of the ERC20 APPROVALS block for one indexed
log: `approvals.set(`token|owner|spender`, { amount, tx_hash })` when
the log decodes, last write winning. -/
def approvalsRegStep (tx : TxData) (s : RunState) (pair : Nat × LogRec) :
    RunState :=
  match decodeApprovalEvent pair.2 with
  | none => s
  | some a =>
    let entry : ApprovalEntry := ⟨a.value, tx.txHash⟩
    let reg := alUpdate (pair.2.address, a.owner, a.spender) entry
      (fun _ => entry) s.approvals
    { s with approvals := reg }

/-- The facts the ERC20 APPROVALS block emits for one indexed log
(`log_index` is the position of the log in the receipt's log list, the
loop counter of the APPROVALS block). -/
def approvalFactsOfLog (tx : TxData) (pair : Nat × LogRec) : List Fact :=
  match decodeApprovalEvent pair.2 with
  | none => []
  | some a =>
    [.approval
       { tx_hash := tx.txHash
         block_number := tx.blockNumber
         timestamp := tx.timestamp
         token := pair.2.address
         owner := a.owner
         spender := a.spender
         value := a.value
         log_index := pair.1 },
     .allowanceEdge
       { tx_hash := tx.txHash
         block_number := tx.blockNumber
         timestamp := tx.timestamp
         token := pair.2.address
         fromAddr := a.owner
         toAddr := a.spender
         amount := a.value }]

/-- The ERC20 APPROVALS block (lines 1080–1115): for every decodable
approval log (scanned by position), overwrite the registry entry for
`(token, owner, spender)` with this approval and emit the `approval` and
`allowance_edge` facts. -/
def approvalsStep (tx : TxData) (st : RunState) : RunState × List Fact :=
  tx.logs.enum.foldl
    (fun acc pair =>
      (approvalsRegStep tx acc.1 pair, acc.2 ++ approvalFactsOfLog tx pair))
    (st, [])

/-- The registry-scan predicate of the ALLOWANCE USAGE block: same
token, owner from the Transfer log, spender is the transaction sender —
each compared after `toLowerCase()`. -/
def usageKeyMatch (t : TransferDec) (sender : Addr)
    (kv : (Addr × Addr × Addr) × ApprovalEntry) : Bool :=
  lowerStr kv.1.1 == lowerStr t.tokenAddr &&
  lowerStr kv.1.2.1 == lowerStr t.fromAddr &&
  lowerStr kv.1.2.2 == lowerStr sender

/-- The ALLOWANCE USAGE block (lines 1117–1149): only for a
`transferFrom`-selector transaction; for each decoded transfer the first
registry entry (in insertion order) whose key matches case-insensitively
yields exactly one `allowance_usage` fact (`break` after the first
match); no match, no fact. -/
def usageStep (tx : TxData) (st : RunState) : List Fact :=
  if methodIdOf tx = TRANSFER_FROM_SELECTOR then
    (transfersOf tx).filterMap (fun t =>
      match st.approvals.find? (usageKeyMatch t tx.fromAddr) with
      | some kv => some (.allowanceUsage
          { token := t.tokenAddr
            owner := t.fromAddr
            spender := tx.fromAddr
            approved_amount := kv.2.amount
            used_amount := t.amount
            approval_tx_hash := kv.2.txHash
            drain_tx_hash := tx.txHash
            block_number := tx.blockNumber
            timestamp := tx.timestamp })
      | none => none)
  else []

/-- The whole per-transaction body of the DERIVED loop, in source
order: the three unconditional records, profile/stat touches, the ETH
transfer, the ERC20 transfers, the trace walk, the revert reason, the
approvals, and finally the allowance-usage linkage (which sees the
approvals registered by this very transaction, since its block runs
last). -/
def processTx (st : RunState) (tx : TxData) : RunState × List Fact :=
  let headFacts : List Fact :=
    [.txEnriched (mkTxEnriched tx),
     .blockTxOrder (mkBlockTxOrder tx),
     .contractCall (mkContractCall tx)]
  let st2 := methodStatStep tx (profileTouchStep tx st)
  let eth := ethTransferStep tx st2
  let erc := erc20Step tx eth.1
  let tr := traceStep tx erc.1
  let rev := revertStep tx
  let appr := approvalsStep tx tr.1
  let uses := usageStep tx appr.1
  (appr.1,
   headFacts ++ eth.2 ++ erc.2 ++ tr.2 ++ rev ++ appr.2 ++ uses)

/-- `unique_callers: stat.callers.size` — the callers list is kept
deduplicated by `setAdd`, so its length is the set size. -/
def serializeStat (s : MethodStat) : MethodStatFact :=
  { toAddr := s.toAddr
    method_id := s.method_id
    count := s.count
    success_count := s.success_count
    revert_count := s.revert_count
    unique_callers := s.callers.length
    first_seen_ts := s.first_seen_ts
    last_seen_ts := s.last_seen_ts }

/-- The end-of-run flush (lines 1154–1177): one `address_profile`
record per profile-map entry (sets already insertion-ordered lists),
then one `method_stat` record per stat-map entry. -/
def flushFacts (st : RunState) : List Fact :=
  st.prof.map (fun p => Fact.addressProfile p.2) ++
  st.methodStats.map (fun s => Fact.methodStat (serializeStat s.2))

/-- The streaming phase: fold the per-transaction processor over the
transaction sequence, concatenating the emitted facts in order. -/
def runDerive (txs : List TxData) : RunState × List Fact :=
  txs.foldl (fun acc tx =>
    let r := processTx acc.1 tx
    (r.1, acc.2 ++ r.2)) (initRunState, [])

/-- A full run: streamed facts followed by the aggregate flush. -/
def runPipeline (txs : List TxData) : List Fact :=
  (runDerive txs).2 ++ flushFacts (runDerive txs).1

/-- The observable state of one `ndjsonWriter`: the record count of the
current shard and the contents of every shard file opened so far, in
file order (the current shard is the last entry). -/
structure WriterState (α : Type) where
  count : Nat
  files : List (List α)
deriving DecidableEq, Repr

/-- `ndjsonWriter` calls `openNew()` once at creation: shard file 0
exists (empty) before any write. -/
def ndjsonInit {α : Type} : WriterState α := ⟨0, [[]]⟩

/-- `stream.write(...)`: append one record to the current (last) shard
file. -/
def appendLast {α : Type} : List (List α) → α → List (List α)
  | [], r => [[r]]
  | [f], r => [f ++ [r]]
  | f :: g :: rest, r => f :: appendLast (g :: rest) r

/-- One `write(obj)`: `if (count >= shardSize) openNew();` then write
the record and increment the count. -/
def ndjsonWrite {α : Type} (shardSize : Nat) (s : WriterState α) (r : α) :
    WriterState α :=
  let s1 := if shardSize ≤ s.count then
    (⟨0, s.files ++ [[]]⟩ : WriterState α) else s
  ⟨s1.count + 1, appendLast s1.files r⟩

/-- A whole sequence of writes through one writer.  (`end()` only closes
the stream; it changes no contents.) -/
def ndjsonRun {α : Type} (shardSize : Nat) (rs : List α) : WriterState α :=
  rs.foldl (ndjsonWrite shardSize) ndjsonInit

/-- A JSON scalar as `safeStringify` renders it: a string, a number, or
null.  BigInt values are stringified before serialization, so amounts
appear as decimal strings. -/
inductive JVal where
  | str (s : String)
  | num (n : Nat)
  | nul
deriving DecidableEq, Repr

/-- A nullable numeric field (`timestamp`). -/
def jOptNum : Option Nat → JVal
  | none => .nul
  | some n => .num n

/-- The exact key/value list of the `allowanceUsageW.write({...})` call
(lines 1132–1144): note the usage transaction hash is written under
`drain_tx_hash` and both amounts as decimal strings
(`approval.amount.toString()`, `amount.toString()`). -/
def allowanceUsageJson (runId : String) (u : AllowanceUsage) :
    List (String × JVal) :=
  [("doc_type", .str "allowance_usage"),
   ("run_id", .str runId),
   ("token", .str u.token),
   ("owner", .str u.owner),
   ("spender", .str u.spender),
   ("approved_amount", .str (decimalRepr u.approved_amount)),
   ("used_amount", .str (decimalRepr u.used_amount)),
   ("approval_tx_hash", .str u.approval_tx_hash),
   ("drain_tx_hash", .str u.drain_tx_hash),
   ("block_number", .num u.block_number),
   ("timestamp", jOptNum u.timestamp)]

/-! ### Observation functions over emitted facts and run states -/

/-- Is this record a native-asset `asset_transfer` fact? -/
def Fact.isNativeTransferFact : Fact → Bool
  | .assetTransfer r => r.asset_type == "native"
  | _ => false

/-- Is this record a native-asset `fund_flow_edge` fact? -/
def Fact.isNativeFundFlow : Fact → Bool
  | .fundFlowEdge r => r.asset_type == "native"
  | _ => false

/-- Is this record an `asset_transfer` fact (of either asset kind)? -/
def Fact.isAssetTransferFact : Fact → Bool
  | .assetTransfer _ => true
  | _ => false

/-- Is this record a `trace_edge` fact? -/
def Fact.isTraceEdge : Fact → Bool
  | .traceEdge _ => true
  | _ => false

/-- Is this record written to the trace-edges stream (`trace_edge` or
the raw `trace_call` document)? -/
def Fact.isTraceStream : Fact → Bool
  | .traceEdge _ => true
  | .traceCallDoc _ _ => true
  | _ => false

/-- Is this record an `internal_native_transfer` fact? -/
def Fact.isInternal : Fact → Bool
  | .internalNativeTransfer _ => true
  | _ => false

/-- Project an `address_profile` record. -/
def Fact.profileR : Fact → Option Profile
  | .addressProfile p => some p
  | _ => none

/-- Project a `method_stat` record. -/
def Fact.statR : Fact → Option MethodStatFact
  | .methodStat s => some s
  | _ => none

/-- Project an `allowance_usage` record. -/
def Fact.usageR : Fact → Option AllowanceUsage
  | .allowanceUsage u => some u
  | _ => none

/-- The facts the ETH TRANSFER block emits for one transaction (they do
not depend on the accumulator state). -/
def ethTransferFacts (tx : TxData) : List Fact :=
  match tx.toAddr with
  | some t =>
    if 0 < tx.value then
      [.assetTransfer (mkNativeTransfer tx t),
       .fundFlowEdge (mkNativeTransfer tx t)]
    else []
  | none => []

/-- The facts the ERC20 TRANSFER EVENTS block emits for one
transaction. -/
def erc20TransferFacts (tx : TxData) : List Fact :=
  (transfersOf tx).flatMap (fun t =>
    [.assetTransfer (mkErc20Transfer tx t),
     .fundFlowEdge (mkErc20Transfer tx t)])

/-- The profile stored in a profile map for an address (the
lazily-created default when the address was never touched). -/
def profileOfMap (m : List (Addr × Profile)) (a : Addr) : Profile :=
  (alFind m a).getD (initProfile a)

/-- The profile recorded for an address (the lazily-created default when
the address was never touched). -/
def profileOf (st : RunState) (a : Addr) : Profile :=
  profileOfMap st.prof a

/-- `eth_in_wei` of an address in the accumulator. -/
def ethInOf (st : RunState) (a : Addr) : Nat := (profileOf st a).eth_in_wei

/-- `eth_out_wei` of an address in the accumulator. -/
def ethOutOf (st : RunState) (a : Addr) : Nat := (profileOf st a).eth_out_wei

/-- Total amount of native `asset_transfer` facts into an address. -/
def natTransferIn (fs : List Fact) (a : Addr) : Nat :=
  (fs.map (fun f =>
    match f with
    | .assetTransfer r =>
      if r.asset_type = "native" ∧ r.toAddr = a then r.amount else 0
    | _ => 0)).sum

/-- Total amount of native `asset_transfer` facts out of an address. -/
def natTransferOut (fs : List Fact) (a : Addr) : Nat :=
  (fs.map (fun f =>
    match f with
    | .assetTransfer r =>
      if r.asset_type = "native" ∧ r.fromAddr = a then r.amount else 0
    | _ => 0)).sum

/-- Total amount of `internal_native_transfer` facts into an address. -/
def internalIn (fs : List Fact) (a : Addr) : Nat :=
  (fs.map (fun f =>
    match f with
    | .internalNativeTransfer r => if r.toAddr = a then r.value_wei else 0
    | _ => 0)).sum

/-- Total amount of `internal_native_transfer` facts out of an
address. -/
def internalOut (fs : List Fact) (a : Addr) : Nat :=
  (fs.map (fun f =>
    match f with
    | .internalNativeTransfer r => if r.fromAddr = a then r.value_wei else 0
    | _ => 0)).sum

/-- The profile-side state effect of one emitted fact: an
`internal_native_transfer` replays exactly the profile mutation the walk
performs when it emits that fact; every other fact leaves the state
unchanged.  `walkTrace` is equal to emitting its facts and replaying
them through this function (proved below), which lets every state
invariant be argued over the flat fact list. -/
def applyInternalFact (st : RunState) (f : Fact) : RunState :=
  match f with
  | .internalNativeTransfer r =>
    let m1 := alUpdate r.fromAddr (initProfile r.fromAddr)
      (walkOutUpd r.value_wei r.toAddr) st.prof
    let m2 := alUpdate r.toAddr (initProfile r.toAddr)
      (walkInUpd r.value_wei) m1
    { st with prof := m2 }
  | _ => st

/-- Replay a fact list through `applyInternalFact`. -/
def applyFacts (st : RunState) (fs : List Fact) : RunState :=
  fs.foldl applyInternalFact st

/-- Well-formedness of the profile map: insertion keys are pairwise
distinct, each stored profile's `address` is its key, and the
`call_targets` set holds no duplicates. -/
def ProfOK (st : RunState) : Prop :=
  (st.prof.map Prod.fst).Nodup ∧
  ∀ kv ∈ st.prof, kv.2.address = kv.1 ∧ kv.2.call_targets.Nodup

/-- Well-formedness of the method-stat map: distinct keys, each stored
stat carrying its key and a duplicate-free caller set. -/
def StatOK (st : RunState) : Prop :=
  (st.methodStats.map Prod.fst).Nodup ∧
  ∀ kv ∈ st.methodStats,
    (kv.2.toAddr, kv.2.method_id) = kv.1 ∧ kv.2.callers.Nodup

/-- Does this fact witness a prior approval matching the usage record
(case-insensitive on the address triple, with the amount and approval
transaction hash the registry stored)? -/
def approvalMatches (u : AllowanceUsage) (f : Fact) : Bool :=
  match f with
  | .approval a =>
    lowerStr a.token == lowerStr u.token &&
    lowerStr a.owner == lowerStr u.owner &&
    lowerStr a.spender == lowerStr u.spender &&
    a.value == u.approved_amount &&
    a.tx_hash == u.approval_tx_hash
  | _ => false

/-- Every approval-registry entry is witnessed by an `approval` fact
already emitted. -/
def RegistryOK (st : RunState) (seen : List Fact) : Prop :=
  ∀ kv ∈ st.approvals,
    ∃ a, Fact.approval a ∈ seen ∧ a.token = kv.1.1 ∧ a.owner = kv.1.2.1 ∧
      a.spender = kv.1.2.2 ∧ a.value = kv.2.amount ∧ a.tx_hash = kv.2.txHash

/-- Every `allowance_usage` record in the list is preceded (within the
list, after the given prefix of already-seen facts) by a matching
`approval` record. -/
def soundFrom (seen : List Fact) : List Fact → Prop
  | [] => True
  | f :: rest =>
    (∀ u, f = Fact.allowanceUsage u →
      ∃ g ∈ seen, approvalMatches u g = true) ∧
    soundFrom (seen ++ [f]) rest

/-! ### Concrete example inputs used by witnesses and counterexamples -/

/-- A 32-byte topic carrying the address `0xaa…aa` (20 bytes). -/
def topicAA : List Nat := List.replicate 12 0 ++ List.replicate 20 0xaa

/-- A 32-byte topic carrying the address `0xbb…bb`. -/
def topicBB : List Nat := List.replicate 12 0 ++ List.replicate 20 0xbb

/-- A 32-byte topic carrying the address `0xcc…cc`. -/
def topicCC : List Nat := List.replicate 12 0 ++ List.replicate 20 0xcc

/-- 32-byte big-endian data word with value `n` (for `n < 256`). -/
def word32 (n : Nat) : List Nat := List.replicate 31 0 ++ [n]

/-- The trace output bytes of the concrete `Error(string)` test case:
selector, offset 32, length 12, `"INSUFFICIENT"`, zero padding. -/
def insufficientOutput : List Nat :=
  ERROR_STRING_SELECTOR ++ word32 0x20 ++ word32 12 ++
  [0x49, 0x4e, 0x53, 0x55, 0x46, 0x46, 0x49, 0x43, 0x49, 0x45, 0x4e, 0x54] ++
  List.replicate 20 0

/-- A trace whose only revert information is the `Error(string)`
output. -/
def insufficientTrace : CallNode :=
  .mk none none none none none (some insufficientOutput) none []

/-- A trace whose only revert information is a `Panic(17)` output. -/
def panic17Trace : CallNode :=
  .mk none none none none none (some (PANIC_SELECTOR ++ word32 17)) none []

/-- A transfer-shaped log with four topics (as an ERC-721 `Transfer`
event produces: same signature hash, three indexed arguments). -/
def fourTopicLog : LogRec :=
  ⟨"0xtoken", [TRANSFER_TOPIC0, topicAA, topicBB, topicCC], word32 7, 0⟩

/-- A transfer-shaped log with exactly three topics. -/
def threeTopicLog : LogRec :=
  ⟨"0xtoken", [TRANSFER_TOPIC0, topicAA, topicBB], word32 7, 0⟩

/-- A plain 5-wei value transfer whose call trace reports the same
top-level call (value 5): the ETH TRANSFER block and the trace walk each
move 5 wei between the two eth totals, while only the ETH TRANSFER block
emits a native `asset_transfer` fact. -/
def tracedEthTx : TxData :=
  { txHash := "0xh1", fromAddr := "0xa", toAddr := some "0xb", value := 5,
    input := [], gasPrice := some 1, gasUsed := some 1, statusCode := 1,
    blockNumber := 1, timestamp := some 100, txIndex := 0, logs := [],
    trace := some (.mk (some "0xa") (some "0xb") (some "CALL") (some 5)
      none none none []),
    rcRevertReason := none }

/-- A transaction carrying one approval log (`0xaa…aa` approves
`0xbb…bb` for 200 of `0xtoken`) and, after it in the same receipt, a
transfer log moving 10 of the same token from `0xaa…aa` to `0xcc…cc` —
sent with the `transferFrom` selector by a mixed-case spelling of the
spender, so the usage linkage must match case-insensitively. -/
def transferFromTx : TxData :=
  { txHash := "0xh2",
    fromAddr := "0x" ++ String.mk (List.replicate 40 'B'),
    toAddr := some "0xtoken", value := 0,
    input := TRANSFER_FROM_SELECTOR ++ word32 1,
    gasPrice := some 1, gasUsed := some 1, statusCode := 1,
    blockNumber := 2, timestamp := some 200, txIndex := 0,
    logs := [⟨"0xtoken", [APPROVAL_TOPIC0, topicAA, topicBB], word32 200, 0⟩,
             ⟨"0xtoken", [TRANSFER_TOPIC0, topicAA, topicCC], word32 10, 1⟩],
    trace := none,
    rcRevertReason := none }

/-- A successful transaction calling `0xtoken` that only emits one ERC20
transfer log: the recipient `0xcc…cc` is then an address that exists in
the profile map without ever being a transaction `from`/`to`, so its
seen-bounds stay `null`. -/
def logOnlyTx : TxData :=
  { txHash := "0xh3", fromAddr := "0xa", toAddr := some "0xtoken",
    value := 0, input := [0x01, 0x02, 0x03, 0x04],
    gasPrice := some 1, gasUsed := some 1, statusCode := 1,
    blockNumber := 3, timestamp := some 300, txIndex := 0,
    logs := [⟨"0xtoken", [TRANSFER_TOPIC0, topicAA, topicCC], word32 9, 0⟩],
    trace := none,
    rcRevertReason := none }

/-- The writer invariant after a prefix of writes `ws`: every closed
shard holds exactly `K` records, the open shard holds `count ≤ K`
records, and the shards concatenate to the writes so far. -/
def writerInv {α : Type} (K : Nat) (ws : List α) (s : WriterState α) :
    Prop :=
  ∃ init last, s.files = init ++ [last] ∧
    (∀ f ∈ init, f.length = K) ∧
    last.length = s.count ∧ s.count ≤ K ∧
    (s.count = 0 → init = []) ∧
    s.files.flatten = ws

/-- Is this record one of the end-of-run aggregate records
(`address_profile` or `method_stat`)?  The streaming phase never emits
these; only the final flush does. -/
def Fact.isAggregate : Fact → Bool
  | .addressProfile _ => true
  | .methodStat _ => true
  | _ => false

/-- The accumulator function of the streaming fold of `runDerive`, named
for the run-level inductions. -/
def deriveStep (acc : RunState × List Fact) (tx : TxData) :
    RunState × List Fact :=
  let r := processTx acc.1 tx
  (r.1, acc.2 ++ r.2)

/-- A profile updater as the run applies through `alUpdate`: it never
changes the `address` field and keeps `call_targets` duplicate-free. -/
def profUpdGood (f : Profile → Profile) : Prop :=
  ∀ p, (f p).address = p.address ∧
    (p.call_targets.Nodup → (f p).call_targets.Nodup)

/-- A method-stat updater as the run applies through `alUpdate`: it
never changes the key fields and keeps the caller set duplicate-free. -/
def statUpdGood (f : MethodStat → MethodStat) : Prop :=
  ∀ s, (f s).toAddr = s.toAddr ∧ (f s).method_id = s.method_id ∧
    (s.callers.Nodup → (f s).callers.Nodup)

/-- The one `allowance_usage` record the run of `transferFromTx`
emits. -/
def usageRecordExample : AllowanceUsage :=
  { token := "0xtoken"
    owner := "0xaaaaaaaaaaaaaaaaaaaaaaaaaaaaaaaaaaaaaaaa"
    spender := "0x" ++ String.mk (List.replicate 40 'B')
    approved_amount := 200
    used_amount := 10
    approval_tx_hash := "0xh2"
    drain_tx_hash := "0xh2"
    block_number := 2
    timestamp := some 200 }

/-! ## Generic lemmas about the map and writer primitives -/

theorem alFind_alUpdate {κ β : Type} [DecidableEq κ] (k k0 : κ) (init : β)
    (f : β → β) (m : List (κ × β)) :
    alFind (alUpdate k init f m) k0 =
      if k0 = k then some (f ((alFind m k).getD init)) else alFind m k0 := by
  induction m with
  | nil =>
    by_cases h : k0 = k
    · subst h; simp [alUpdate, alFind]
    · have h2 : ¬k = k0 := fun he => h he.symm
      simp [alUpdate, alFind, h, h2]
  | cons kv rest ih =>
    obtain ⟨k1, v⟩ := kv
    by_cases h1 : k1 = k
    · subst h1
      by_cases h0 : k1 = k0
      · subst h0; simp [alUpdate, alFind]
      · have h0s : ¬k0 = k1 := fun he => h0 he.symm
        simp [alUpdate, alFind, h0, h0s]
    · by_cases h0 : k1 = k0
      · subst h0
        have hne : ¬k1 = k := h1
        simp [alUpdate, alFind, hne]
      · simp [alUpdate, alFind, h1, h0, ih]

theorem alUpdate_keys {κ β : Type} [DecidableEq κ] (k : κ) (init : β)
    (f : β → β) (m : List (κ × β)) :
    (alUpdate k init f m).map Prod.fst =
      if k ∈ m.map Prod.fst then m.map Prod.fst
      else m.map Prod.fst ++ [k] := by
  induction m with
  | nil => simp [alUpdate]
  | cons kv rest ih =>
    obtain ⟨k1, v⟩ := kv
    by_cases h1 : k1 = k
    · subst h1; simp [alUpdate]
    · have hne : ¬k = k1 := fun h => h1 h.symm
      by_cases hk : k ∈ rest.map Prod.fst <;>
        simp [alUpdate, h1, hk, hne, ih]

theorem alUpdate_mem {κ β : Type} [DecidableEq κ] (k : κ) (init : β)
    (f : β → β) (m : List (κ × β)) (kv : κ × β)
    (h : kv ∈ alUpdate k init f m) :
    kv ∈ m ∨ (kv.1 = k ∧ (kv.2 = f init ∨ ∃ v, (k, v) ∈ m ∧ kv.2 = f v)) := by
  induction m with
  | nil =>
    simp [alUpdate] at h
    right
    rw [h]
    exact ⟨rfl, Or.inl rfl⟩
  | cons hd rest ih =>
    obtain ⟨k1, v⟩ := hd
    by_cases h1 : k1 = k
    · subst h1
      rcases List.mem_cons.mp (by simpa [alUpdate] using h) with h2 | h2
      · right
        rw [h2]
        exact ⟨rfl, Or.inr ⟨v, List.mem_cons_self _ _, rfl⟩⟩
      · exact Or.inl (List.mem_cons_of_mem _ h2)
    · rcases List.mem_cons.mp (by simpa [alUpdate, h1] using h) with h2 | h2
      · left
        rw [h2]
        exact List.mem_cons_self _ _
      · rcases ih h2 with h3 | ⟨he, h4⟩
        · exact Or.inl (List.mem_cons_of_mem _ h3)
        · right
          refine ⟨he, ?_⟩
          rcases h4 with h5 | ⟨v2, hv2, hv3⟩
          · exact Or.inl h5
          · exact Or.inr ⟨v2, List.mem_cons_of_mem _ hv2, hv3⟩

theorem alUpdate_keys_nodup {κ β : Type} [DecidableEq κ] (k : κ) (init : β)
    (f : β → β) (m : List (κ × β)) (h : (m.map Prod.fst).Nodup) :
    ((alUpdate k init f m).map Prod.fst).Nodup := by
  rw [alUpdate_keys]
  by_cases hk : k ∈ m.map Prod.fst
  · simpa [hk] using h
  · simp only [hk, if_false]
    have hd : List.Disjoint (m.map Prod.fst) [k] := by
      intro a ha hb
      simp at hb
      subst hb
      exact hk ha
    exact h.append (List.nodup_singleton k) hd

theorem alFind_of_mem_nodup {κ β : Type} [DecidableEq κ]
    (m : List (κ × β)) (kv : κ × β) (hn : (m.map Prod.fst).Nodup)
    (h : kv ∈ m) : alFind m kv.1 = some kv.2 := by
  induction m with
  | nil => simp at h
  | cons hd rest ih =>
    obtain ⟨k1, v⟩ := hd
    have hn' : (k1 :: rest.map Prod.fst).Nodup := by
      rw [List.map_cons] at hn; exact hn
    have hn1 := List.nodup_cons.mp hn'
    rcases List.mem_cons.mp h with h1 | h1
    · subst h1; simp [alFind]
    · have hne : ¬k1 = kv.1 := by
        intro he
        apply hn1.1
        rw [he]
        exact List.mem_map.mpr ⟨kv, h1, rfl⟩
      have := ih hn1.2 h1
      simpa [alFind, hne] using this

/-! ## C3 — revert-reason source order and the `Error(string)` case -/

/-- **C3**: `decodeRevertReason` consults its four sources in the
stated order: (1) a truthy trace-supplied reason wins outright; (2)
otherwise a truthy receipt-supplied reason wins; (3) otherwise trace
output starting with the `Error(string)` selector (and longer than the
selector) is ABI-decoded — with any decode failure yielding `none`
rather than raising, since `abiDecodeString` is `none` exactly on the
inputs where ethers throws inside the `try`; (4) with no usable output
the result is `none`; and on the concrete output bytes
`0x08c379a0 ++ abi("INSUFFICIENT")` the decoder returns exactly
`"INSUFFICIENT"`. -/
theorem decodeRevertReason_source_order :
    (∀ t rc, truthyStr t.revertReason = true →
      decodeRevertReason (some t) rc = t.revertReason) ∧
    (∀ tr rc, truthyStr (tr.bind CallNode.revertReason) = false →
      truthyStr rc = true → decodeRevertReason tr rc = rc) ∧
    (∀ t rc out, truthyStr t.revertReason = false → truthyStr rc = false →
      t.output = some out → out.take 4 = ERROR_STRING_SELECTOR →
      4 < out.length →
      decodeRevertReason (some t) rc = abiDecodeString (out.drop 4)) ∧
    (∀ t rc, truthyStr t.revertReason = false → truthyStr rc = false →
      t.output = none → decodeRevertReason (some t) rc = none) ∧
    decodeRevertReason (some insufficientTrace) none = some "INSUFFICIENT" := by
  refine ⟨?_, ?_, ?_, ?_, ?_⟩
  · intro t rc h
    simp [decodeRevertReason, Option.bind, h]
  · intro tr rc h1 h2
    simp [decodeRevertReason, h1, h2]
  · intro t rc out h1 h2 hout hsel hlen
    simp [decodeRevertReason, Option.bind, h1, h2, hout, hsel, hlen]
  · intro t rc h1 h2 hout
    simp [decodeRevertReason, Option.bind, h1, h2, hout]
  · decide

/-- Witness for C3: the first source applied to a concrete trace-level
reason. -/
theorem decodeRevertReason_source_order_witness :
    decodeRevertReason
      (some (CallNode.mk none none none none none none (some "boom") []))
      none = some "boom" :=
  decodeRevertReason_source_order.1
    (CallNode.mk none none none none none none (some "boom") []) none
    (by decide)

/-! ## C4 — panic-code decoding -/

/-- **C4**: when the output starts with the `Panic(uint256)` selector,
the decoder renders the known codes 1, 17, 18, 33, 34, 65, 81 through
their symbolic names and any other code as the raw decimal number; on
the concrete output `0x4e487b71 ++ uint256(17)` the result is
`"Panic(ARITHMETIC_OVERFLOW)"`, not the bare number 17. -/
theorem decodeRevertReason_panic_decoding :
    (∀ t rc out, truthyStr t.revertReason = false → truthyStr rc = false →
      t.output = some out → out.take 4 = PANIC_SELECTOR → 4 < out.length →
      decodeRevertReason (some t) rc =
        some (panicReasonString (beBytesToNat (out.drop 4)))) ∧
    panicCodes 1 = some "ASSERTION_ERROR" ∧
    panicCodes 17 = some "ARITHMETIC_OVERFLOW" ∧
    panicCodes 18 = some "DIVISION_BY_ZERO" ∧
    panicCodes 33 = some "ENUM_CONVERSION_ERROR" ∧
    panicCodes 34 = some "INVALID_ENCODING" ∧
    panicCodes 65 = some "ARRAY_ALLOCATION_ERROR" ∧
    panicCodes 81 = some "MEMORY_ACCESS_ERROR" ∧
    (∀ c, c ∉ ([1, 17, 18, 33, 34, 65, 81] : List Nat) →
      panicReasonString c = "Panic(" ++ decimalRepr c ++ ")") ∧
    decodeRevertReason (some panic17Trace) none =
      some "Panic(ARITHMETIC_OVERFLOW)" := by
  refine ⟨?_, by decide, by decide, by decide, by decide, by decide,
    by decide, by decide, ?_, by decide⟩
  · intro t rc out h1 h2 hout hsel hlen
    have hne : ¬(PANIC_SELECTOR = ERROR_STRING_SELECTOR) := by decide
    simp [decodeRevertReason, Option.bind, h1, h2, hout, hsel, hlen, hne]
  · intro c hc
    simp at hc
    obtain ⟨n1, n17, n18, n33, n34, n65, n81⟩ := hc
    simp [panicReasonString, panicCodes, n1, n17, n18, n33, n34, n65, n81]

/-- Witness for C4: the panic branch applied to the concrete `Panic(5)`
payload (an unknown code rendered as the raw number). -/
theorem decodeRevertReason_panic_decoding_witness :
    decodeRevertReason
      (some (CallNode.mk none none none none none
        (some (PANIC_SELECTOR ++ word32 5)) none []))
      none = some (panicReasonString (beBytesToNat (word32 5))) :=
  decodeRevertReason_panic_decoding.1
    (CallNode.mk none none none none none
      (some (PANIC_SELECTOR ++ word32 5)) none [])
    none (PANIC_SELECTOR ++ word32 5)
    (by decide) (by decide) rfl (by decide) (by decide)

/-! ## C5 — transfer-log shape matching -/

/-- **C5 counterexample**: a four-topic log whose first topic is the
Transfer signature hash (the shape an ERC-721 `Transfer` event has)
still decodes to a fact — the code only requires `topics.length ≥ 3`
(`if (topics.length < 3) continue`), not exactly 3 as claimed. -/
theorem decodeTransferLog_four_topics_counterexample :
    (decodeTransferLog fourTopicLog).isSome = true ∧
    fourTopicLog.topics.length ≠ 3 := by decide

/-- **C5 (amended)**: token-transfer decoding yields a fact exactly when
the log's first topic is the Transfer signature hash and the log has
*at least* 3 topics; the addresses come from the low 20 bytes of topics
1 and 2 and the amount from the data payload as a big-endian unsigned
integer; on any mismatch the (total) decoder yields `none`; and
approval decoding follows the same shape matching against its own
signature hash. -/
theorem decodeTransferLog_shape :
    (∀ lg : LogRec, (decodeTransferLog lg).isSome = true ↔
      (3 ≤ lg.topics.length ∧ lg.topics.headD [] = TRANSFER_TOPIC0)) ∧
    (∀ lg d, decodeTransferLog lg = some d →
      d.fromAddr = topicToAddress (lg.topics.getD 1 []) ∧
      d.toAddr = topicToAddress (lg.topics.getD 2 []) ∧
      d.amount = beBytesToNat lg.data ∧
      d.tokenAddr = lg.address ∧ d.logIndex = lg.logIndex) ∧
    (∀ lg : LogRec, (decodeApprovalEvent lg).isSome = true ↔
      (3 ≤ lg.topics.length ∧ lg.topics.headD [] = APPROVAL_TOPIC0)) := by
  refine ⟨?_, ?_, ?_⟩
  · intro lg
    by_cases h1 : lg.topics.length < 3
    · rw [decodeTransferLog, if_pos h1]
      constructor
      · intro hcon; exact absurd hcon (by simp)
      · rintro ⟨hlen, _⟩; omega
    · by_cases h2 : lg.topics.headD [] = TRANSFER_TOPIC0
      · rw [decodeTransferLog, if_neg h1, if_neg (fun hc => hc h2)]
        constructor
        · intro _; exact ⟨by omega, h2⟩
        · intro _; rfl
      · rw [decodeTransferLog, if_neg h1, if_pos h2]
        constructor
        · intro hcon; exact absurd hcon (by simp)
        · rintro ⟨_, hsig⟩; exact absurd hsig h2
  · intro lg d h
    rw [decodeTransferLog] at h
    split at h
    · exact absurd h (by simp)
    · split at h
      · exact absurd h (by simp)
      · cases h
        exact ⟨rfl, rfl, rfl, rfl, rfl⟩
  · intro lg
    by_cases h1 : lg.topics.length < 3
    · rw [decodeApprovalEvent, if_pos h1]
      constructor
      · intro hcon; exact absurd hcon (by simp)
      · rintro ⟨hlen, _⟩; omega
    · by_cases h2 : lg.topics.headD [] = APPROVAL_TOPIC0
      · rw [decodeApprovalEvent, if_neg h1, if_neg (fun hc => hc h2)]
        constructor
        · intro _; exact ⟨by omega, h2⟩
        · intro _; rfl
      · rw [decodeApprovalEvent, if_neg h1, if_pos h2]
        constructor
        · intro hcon; exact absurd hcon (by simp)
        · rintro ⟨_, hsig⟩; exact absurd hsig h2

/-- Witness for C5 (amended): the field extraction on a concrete
three-topic transfer log. -/
theorem decodeTransferLog_shape_witness :
    topicToAddress topicAA = topicToAddress (threeTopicLog.topics.getD 1 []) ∧
    topicToAddress topicBB = topicToAddress (threeTopicLog.topics.getD 2 []) ∧
    (7 : Nat) = beBytesToNat threeTopicLog.data ∧
    "0xtoken" = threeTopicLog.address ∧ (0 : Nat) = threeTopicLog.logIndex :=
  decodeTransferLog_shape.2.1 threeTopicLog
    ⟨topicToAddress topicAA, topicToAddress topicBB, 7, "0xtoken", 0⟩
    (by decide)

/-! ## C7 — shard writer bounds -/

theorem appendLast_flatten {α : Type} (fs : List (List α)) (r : α) :
    (appendLast fs r).flatten = fs.flatten ++ [r] := by
  induction fs with
  | nil => simp [appendLast]
  | cons f rest ih =>
    cases rest with
    | nil => simp [appendLast]
    | cons g rest2 =>
      simp only [appendLast, List.flatten_cons]
      rw [ih]
      simp [List.append_assoc]

theorem appendLast_concat {α : Type} (init : List (List α)) (last : List α)
    (r : α) : appendLast (init ++ [last]) r = init ++ [last ++ [r]] := by
  induction init with
  | nil => simp [appendLast]
  | cons f rest ih =>
    cases h : rest ++ [last] with
    | nil => simp at h
    | cons g tl =>
      have h3 : appendLast (f :: (rest ++ [last])) r =
          f :: appendLast (rest ++ [last]) r := by
        rw [h]
        simp [appendLast]
      rw [List.cons_append, h3, ih, List.cons_append]

theorem writerInv_init {α : Type} (K : Nat) :
    writerInv K ([] : List α) ndjsonInit := by
  exact ⟨[], [], rfl, by intro f hf; simp at hf, rfl, Nat.zero_le K,
    fun _ => rfl, rfl⟩

theorem writerInv_write {α : Type} (K : Nat) (hK : 1 ≤ K) (ws : List α)
    (s : WriterState α) (r : α) (h : writerInv K ws s) :
    writerInv K (ws ++ [r]) (ndjsonWrite K s r) := by
  obtain ⟨init, last, hfiles, hinit, hlast, hle, hzero, hflat⟩ := h
  by_cases hfull : K ≤ s.count
  · have hw : ndjsonWrite K s r =
        ⟨1, appendLast (s.files ++ [[]]) r⟩ := by
      simp [ndjsonWrite, hfull]
    have hlastK : last.length = K := by omega
    have happ : appendLast (s.files ++ [[]]) r = (init ++ [last]) ++ [[r]] := by
      rw [hfiles]
      rw [appendLast_concat (init ++ [last]) [] r]
      simp
    refine ⟨init ++ [last], [r], ?_, ?_, ?_, ?_, ?_, ?_⟩
    · rw [hw]; exact happ
    · intro f hf
      rcases List.mem_append.mp hf with h1 | h1
      · exact hinit f h1
      · simp at h1
        rw [h1]; exact hlastK
    · simp [hw]
    · simp [hw, hK]
    · simp [hw]
    · simp only [hw]
      show (appendLast (s.files ++ [[]]) r).flatten = ws ++ [r]
      rw [happ]
      simp only [List.flatten_append, List.flatten_cons, List.flatten_nil]
      rw [← hflat, hfiles]
      simp
  · have hw : ndjsonWrite K s r = ⟨s.count + 1, appendLast s.files r⟩ := by
      simp [ndjsonWrite, hfull]
    have happ : appendLast s.files r = init ++ [last ++ [r]] := by
      rw [hfiles]; exact appendLast_concat init last r
    refine ⟨init, last ++ [r], ?_, hinit, ?_, ?_, ?_, ?_⟩
    · rw [hw]; exact happ
    · simp [hw, hlast]
    · simp [hw]; omega
    · simp [hw]
    · simp only [hw]
      show (appendLast s.files r).flatten = ws ++ [r]
      rw [appendLast_flatten, hflat]

theorem writerInv_run {α : Type} (K : Nat) (hK : 1 ≤ K) (rs : List α) :
    writerInv K rs (ndjsonRun K rs) := by
  suffices h : ∀ (l : List α) (ws : List α) (s : WriterState α),
      writerInv K ws s → writerInv K (ws ++ l) (l.foldl (ndjsonWrite K) s) by
    simpa using h rs [] ndjsonInit (writerInv_init K)
  intro l
  induction l with
  | nil => intro ws s hs; simpa using hs
  | cons r rest ih =>
    intro ws s hs
    have h1 := writerInv_write K hK ws s r hs
    have h2 := ih (ws ++ [r]) (ndjsonWrite K s r) h1
    simpa using h2

/-- **C7 counterexample**: a run of zero writes still produces one
(empty) shard file, because `ndjsonWriter` opens shard 0 eagerly at
creation — `ceil(0/K) = 0` files is wrong. -/
theorem ndjson_empty_run_counterexample :
    (ndjsonRun 5 ([] : List Nat)).files.length = 1 ∧
    (([] : List Nat).length + 5 - 1) / 5 = 0 := by decide

/-- **C7 (amended)**: for a configured shard capacity `K ≥ 1`, writing
`N` records produces `max 1 ⌈N/K⌉` shard files (one empty shard when
nothing was written), each holding at most `K` records, and the
concatenation of the shards in file order is exactly the write
sequence. -/
theorem flatten_length_of_const {α : Type} (K : Nat) (l : List (List α))
    (h : ∀ f ∈ l, f.length = K) : l.flatten.length = K * l.length := by
  induction l with
  | nil => simp
  | cons f rest ih =>
    have hf : f.length = K := h f (List.mem_cons_self _ _)
    have ih2 := ih (fun g hg => h g (List.mem_cons_of_mem _ hg))
    simp only [List.flatten_cons, List.length_append, List.length_cons,
      hf, ih2, Nat.mul_succ]
    omega

theorem ndjson_shard_bounds {α : Type} (K : Nat) (hK : 1 ≤ K)
    (rs : List α) :
    (ndjsonRun K rs).files.length = max 1 ((rs.length + K - 1) / K) ∧
    (∀ f ∈ (ndjsonRun K rs).files, f.length ≤ K) ∧
    (ndjsonRun K rs).files.flatten = rs := by
  obtain ⟨init, last, hfiles, hinit, hlast, hle, hzero, hflat⟩ :=
    writerInv_run K hK rs
  have hlen : rs.length = K * init.length + (ndjsonRun K rs).count := by
    have h1 : (ndjsonRun K rs).files.flatten.length = rs.length := by
      rw [hflat]
    rw [hfiles] at h1
    simp only [List.flatten_append, List.flatten_cons, List.flatten_nil,
      List.length_append, List.append_nil] at h1
    rw [flatten_length_of_const K init hinit] at h1
    omega
  refine ⟨?_, ?_, hflat⟩
  · rw [hfiles]
    simp only [List.length_append, List.length_cons, List.length_nil]
    by_cases hc : (ndjsonRun K rs).count = 0
    · have hi0 := hzero hc
      have hrs0 : rs.length = 0 := by
        rw [hlen, hc, hi0]
        simp
      rw [hi0, hrs0]
      have hz : (K - 1) / K = 0 := Nat.div_eq_of_lt (by omega)
      simp [hz]
    · have h1 : 1 ≤ (ndjsonRun K rs).count := by omega
      have hdiv : (rs.length + K - 1) / K = init.length + 1 := by
        have he : rs.length + K - 1 =
            K * init.length + ((ndjsonRun K rs).count + K - 1) := by omega
        rw [he, Nat.mul_add_div (by omega)]
        have h2 : ((ndjsonRun K rs).count + K - 1) / K = 1 := by
          apply Nat.div_eq_of_lt_le
          · omega
          · omega
        omega
      rw [hdiv]
      omega
  · intro f hf
    rw [hfiles] at hf
    rcases List.mem_append.mp hf with h1 | h1
    · rw [hinit f h1]
    · simp at h1
      rw [h1]
      omega

/-- Witness for C7 (amended): five writes at capacity two give three
shard files `[r1 r2][r3 r4][r5]` that concatenate back to the writes. -/
theorem ndjson_shard_bounds_witness :
    (ndjsonRun 2 [10, 20, 30, 40, 50]).files.length =
      max 1 (([10, 20, 30, 40, 50].length + 2 - 1) / 2) ∧
    (∀ f ∈ (ndjsonRun 2 [10, 20, 30, 40, 50]).files, f.length ≤ 2) ∧
    (ndjsonRun 2 [10, 20, 30, 40, 50]).files.flatten = [10, 20, 30, 40, 50] :=
  ndjson_shard_bounds 2 (by decide) [10, 20, 30, 40, 50]

/-! ## C8 — the `allowance_usage` record contract -/

theorem decDigitsAux_all_digits (n : Nat) :
    ∀ acc : List Char, acc.all Char.isDigit = true →
      (decDigitsAux n acc).all Char.isDigit = true := by
  induction n using Nat.strong_induction_on with
  | _ n ih =>
    match n with
    | 0 =>
      intro acc hacc
      simpa [decDigitsAux] using hacc
    | m + 1 =>
      intro acc hacc
      rw [decDigitsAux]
      apply ih ((m + 1) / 10) (Nat.div_lt_self (Nat.succ_pos m) (by omega))
      rw [List.all_cons]
      refine (Bool.and_eq_true _ _).mpr ⟨?_, hacc⟩
      have hd : (m + 1) % 10 < 10 := Nat.mod_lt _ (by omega)
      revert hd
      generalize (m + 1) % 10 = d
      intro hd
      interval_cases d <;> decide

/-- `BigInt.toString()` output consists of decimal digits only. -/
theorem decimalRepr_all_digits (n : Nat) :
    (decimalRepr n).data.all Char.isDigit = true := by
  rw [decimalRepr]
  by_cases h : n = 0
  · rw [if_pos h]
    decide
  · rw [if_neg h]
    exact decDigitsAux_all_digits n [] rfl

/-- **C8 counterexample**: a concrete run that emits exactly one
`allowance_usage` record, whose serialized key set does *not* contain
`usage_tx_hash` — the usage transaction hash is written under
`drain_tx_hash` instead. -/
theorem allowance_usage_key_counterexample :
    ((runPipeline [transferFromTx]).filterMap Fact.usageR).length = 1 ∧
    ((runPipeline [transferFromTx]).filterMap Fact.usageR).all
      (fun u => !(((allowanceUsageJson "RUN_TEST" u).map Prod.fst).contains
        "usage_tx_hash") &&
        ((allowanceUsageJson "RUN_TEST" u).map Prod.fst).contains
          "drain_tx_hash") = true := by decide

/-- **C8 (amended)**: every emitted `allowance_usage` record carries
exactly the keys {doc_type, run_id, token, owner, spender,
approved_amount, used_amount, approval_tx_hash, drain_tx_hash,
block_number, timestamp} — the usage transaction hash under
`drain_tx_hash`, not `usage_tx_hash` — and both amount fields are
decimal strings (digit characters only, so never `0x…` hex and never a
float). -/
theorem allowance_usage_record_contract (runId : String)
    (u : AllowanceUsage) :
    (allowanceUsageJson runId u).map Prod.fst =
      ["doc_type", "run_id", "token", "owner", "spender",
       "approved_amount", "used_amount", "approval_tx_hash",
       "drain_tx_hash", "block_number", "timestamp"] ∧
    alFind (allowanceUsageJson runId u) "approved_amount" =
      some (.str (decimalRepr u.approved_amount)) ∧
    alFind (allowanceUsageJson runId u) "used_amount" =
      some (.str (decimalRepr u.used_amount)) ∧
    (decimalRepr u.approved_amount).data.all Char.isDigit = true ∧
    (decimalRepr u.used_amount).data.all Char.isDigit = true := by
  refine ⟨rfl, ?_, ?_, decimalRepr_all_digits _, decimalRepr_all_digits _⟩
  · rfl
  · rfl

/-! ## Profile/state bookkeeping lemmas -/

theorem profTouchTs_proj (ts : Option Nat) (p : Profile) :
    (profTouchTs ts p).eth_in_wei = p.eth_in_wei ∧
    (profTouchTs ts p).eth_out_wei = p.eth_out_wei ∧
    (profTouchTs ts p).address = p.address ∧
    (profTouchTs ts p).call_targets = p.call_targets := by
  cases ts with
  | none => exact ⟨rfl, rfl, rfl, rfl⟩
  | some t =>
    by_cases h : t ≠ 0
    · simp [profTouchTs, h]
    · simp [profTouchTs, h]

theorem fromProfUpd_proj (tx : TxData) (p : Profile) :
    (fromProfUpd tx p).eth_in_wei = p.eth_in_wei ∧
    (fromProfUpd tx p).eth_out_wei = p.eth_out_wei ∧
    (fromProfUpd tx p).address = p.address ∧
    (fromProfUpd tx p).call_targets = p.call_targets := by
  have h := profTouchTs_proj tx.timestamp
    { p with tx_out_count := p.tx_out_count + 1
             gas_spent_wei := p.gas_spent_wei + gasCostOf tx
             total_gas_used := p.total_gas_used + gasUsedOf tx }
  exact ⟨h.1, h.2.1, h.2.2.1, h.2.2.2⟩

theorem toProfUpd_proj (tx : TxData) (p : Profile) :
    (toProfUpd tx p).eth_in_wei = p.eth_in_wei ∧
    (toProfUpd tx p).eth_out_wei = p.eth_out_wei ∧
    (toProfUpd tx p).address = p.address ∧
    (toProfUpd tx p).call_targets = p.call_targets := by
  have h := profTouchTs_proj tx.timestamp
    { p with tx_in_count := p.tx_in_count + 1 }
  exact ⟨h.1, h.2.1, h.2.2.1, h.2.2.2⟩

/-- The profile visible at any address after one insert-or-update. -/
theorem profileOfMap_update (m : List (Addr × Profile)) (k : Addr)
    (f : Profile → Profile) (a : Addr) :
    profileOfMap (alUpdate k (initProfile k) f m) a =
      if a = k then f (profileOfMap m k) else profileOfMap m a := by
  unfold profileOfMap
  rw [alFind_alUpdate]
  by_cases h : a = k
  · subst h
    simp
  · simp [h]

theorem ethInOfMap_update_preserve (m : List (Addr × Profile)) (k : Addr)
    (f : Profile → Profile) (hf : ∀ p, (f p).eth_in_wei = p.eth_in_wei)
    (a : Addr) :
    (profileOfMap (alUpdate k (initProfile k) f m) a).eth_in_wei =
      (profileOfMap m a).eth_in_wei := by
  rw [profileOfMap_update]
  by_cases h : a = k
  · rw [if_pos h, hf, h]
  · rw [if_neg h]

theorem ethOutOfMap_update_preserve (m : List (Addr × Profile)) (k : Addr)
    (f : Profile → Profile) (hf : ∀ p, (f p).eth_out_wei = p.eth_out_wei)
    (a : Addr) :
    (profileOfMap (alUpdate k (initProfile k) f m) a).eth_out_wei =
      (profileOfMap m a).eth_out_wei := by
  rw [profileOfMap_update]
  by_cases h : a = k
  · rw [if_pos h, hf, h]
  · rw [if_neg h]

theorem ethInOfMap_update_add (m : List (Addr × Profile)) (k : Addr)
    (f : Profile → Profile) (v : Nat)
    (hf : ∀ p, (f p).eth_in_wei = p.eth_in_wei + v) (a : Addr) :
    (profileOfMap (alUpdate k (initProfile k) f m) a).eth_in_wei =
      (profileOfMap m a).eth_in_wei + (if a = k then v else 0) := by
  rw [profileOfMap_update]
  by_cases h : a = k
  · rw [if_pos h, if_pos h, hf, h]
  · rw [if_neg h, if_neg h]
    omega

theorem ethOutOfMap_update_add (m : List (Addr × Profile)) (k : Addr)
    (f : Profile → Profile) (v : Nat)
    (hf : ∀ p, (f p).eth_out_wei = p.eth_out_wei + v) (a : Addr) :
    (profileOfMap (alUpdate k (initProfile k) f m) a).eth_out_wei =
      (profileOfMap m a).eth_out_wei + (if a = k then v else 0) := by
  rw [profileOfMap_update]
  by_cases h : a = k
  · rw [if_pos h, if_pos h, hf, h]
  · rw [if_neg h, if_neg h]
    omega

theorem natTransferIn_append (fs gs : List Fact) (a : Addr) :
    natTransferIn (fs ++ gs) a = natTransferIn fs a + natTransferIn gs a := by
  simp [natTransferIn]

theorem natTransferOut_append (fs gs : List Fact) (a : Addr) :
    natTransferOut (fs ++ gs) a =
      natTransferOut fs a + natTransferOut gs a := by
  simp [natTransferOut]

theorem internalIn_append (fs gs : List Fact) (a : Addr) :
    internalIn (fs ++ gs) a = internalIn fs a + internalIn gs a := by
  simp [internalIn]

theorem internalOut_append (fs gs : List Fact) (a : Addr) :
    internalOut (fs ++ gs) a = internalOut fs a + internalOut gs a := by
  simp [internalOut]

theorem applyFacts_append (st : RunState) (fs gs : List Fact) :
    applyFacts st (fs ++ gs) = applyFacts (applyFacts st fs) gs := by
  simp [applyFacts, List.foldl_append]

theorem ethInOf_applyInternalFact (st : RunState) (f : Fact) (a : Addr) :
    ethInOf (applyInternalFact st f) a =
      ethInOf st a +
        (match f with
         | .internalNativeTransfer r => if r.toAddr = a then r.value_wei else 0
         | _ => 0) := by
  cases f with
  | internalNativeTransfer r =>
    show (profileOfMap (alUpdate r.toAddr (initProfile r.toAddr)
        (walkInUpd r.value_wei)
        (alUpdate r.fromAddr (initProfile r.fromAddr)
          (walkOutUpd r.value_wei r.toAddr) st.prof)) a).eth_in_wei =
      (profileOfMap st.prof a).eth_in_wei +
        (if r.toAddr = a then r.value_wei else 0)
    rw [ethInOfMap_update_add _ _ (walkInUpd r.value_wei) r.value_wei
      (fun p => rfl) a]
    rw [ethInOfMap_update_preserve _ _ (walkOutUpd r.value_wei r.toAddr)
      (fun p => rfl) a]
    by_cases h : a = r.toAddr
    · rw [if_pos h, if_pos h.symm]
    · rw [if_neg h, if_neg (fun he => h he.symm)]
  | txEnriched r => simp [applyInternalFact]
  | blockTxOrder r => simp [applyInternalFact]
  | contractCall r => simp [applyInternalFact]
  | assetTransfer r => simp [applyInternalFact]
  | fundFlowEdge r => simp [applyInternalFact]
  | traceCallDoc h b => simp [applyInternalFact]
  | traceEdge r => simp [applyInternalFact]
  | revertReasonDoc r => simp [applyInternalFact]
  | approval r => simp [applyInternalFact]
  | allowanceEdge r => simp [applyInternalFact]
  | allowanceUsage r => simp [applyInternalFact]
  | addressProfile r => simp [applyInternalFact]
  | methodStat r => simp [applyInternalFact]

theorem ethOutOf_applyInternalFact (st : RunState) (f : Fact) (a : Addr) :
    ethOutOf (applyInternalFact st f) a =
      ethOutOf st a +
        (match f with
         | .internalNativeTransfer r =>
           if r.fromAddr = a then r.value_wei else 0
         | _ => 0) := by
  cases f with
  | internalNativeTransfer r =>
    show (profileOfMap (alUpdate r.toAddr (initProfile r.toAddr)
        (walkInUpd r.value_wei)
        (alUpdate r.fromAddr (initProfile r.fromAddr)
          (walkOutUpd r.value_wei r.toAddr) st.prof)) a).eth_out_wei =
      (profileOfMap st.prof a).eth_out_wei +
        (if r.fromAddr = a then r.value_wei else 0)
    rw [ethOutOfMap_update_preserve _ _ (walkInUpd r.value_wei)
      (fun p => rfl) a]
    rw [ethOutOfMap_update_add _ _ (walkOutUpd r.value_wei r.toAddr)
      r.value_wei (fun p => rfl) a]
    by_cases h : a = r.fromAddr
    · rw [if_pos h, if_pos h.symm]
    · rw [if_neg h, if_neg (fun he => h he.symm)]
  | txEnriched r => simp [applyInternalFact]
  | blockTxOrder r => simp [applyInternalFact]
  | contractCall r => simp [applyInternalFact]
  | assetTransfer r => simp [applyInternalFact]
  | fundFlowEdge r => simp [applyInternalFact]
  | traceCallDoc h b => simp [applyInternalFact]
  | traceEdge r => simp [applyInternalFact]
  | revertReasonDoc r => simp [applyInternalFact]
  | approval r => simp [applyInternalFact]
  | allowanceEdge r => simp [applyInternalFact]
  | allowanceUsage r => simp [applyInternalFact]
  | addressProfile r => simp [applyInternalFact]
  | methodStat r => simp [applyInternalFact]

theorem ethInOf_applyFacts (st : RunState) (fs : List Fact) (a : Addr) :
    ethInOf (applyFacts st fs) a = ethInOf st a + internalIn fs a := by
  induction fs generalizing st with
  | nil => simp [applyFacts, internalIn]
  | cons f rest ih =>
    show ethInOf (applyFacts (applyInternalFact st f) rest) a = _
    rw [ih, ethInOf_applyInternalFact]
    show _ = ethInOf st a + internalIn (f :: rest) a
    unfold internalIn
    simp only [List.map_cons, List.sum_cons]
    unfold internalIn at *
    omega

theorem ethOutOf_applyFacts (st : RunState) (fs : List Fact) (a : Addr) :
    ethOutOf (applyFacts st fs) a = ethOutOf st a + internalOut fs a := by
  induction fs generalizing st with
  | nil => simp [applyFacts, internalOut]
  | cons f rest ih =>
    show ethOutOf (applyFacts (applyInternalFact st f) rest) a = _
    rw [ih, ethOutOf_applyInternalFact]
    show _ = ethOutOf st a + internalOut (f :: rest) a
    unfold internalOut
    simp only [List.map_cons, List.sum_cons]
    unfold internalOut at *
    omega

theorem applyInternalFact_other (st : RunState) (f : Fact) :
    (applyInternalFact st f).methodStats = st.methodStats ∧
    (applyInternalFact st f).approvals = st.approvals := by
  cases f <;> exact ⟨rfl, rfl⟩

theorem applyFacts_other (st : RunState) (fs : List Fact) :
    (applyFacts st fs).methodStats = st.methodStats ∧
    (applyFacts st fs).approvals = st.approvals := by
  induction fs generalizing st with
  | nil => exact ⟨rfl, rfl⟩
  | cons f rest ih =>
    show (applyFacts (applyInternalFact st f) rest).methodStats = _ ∧
      (applyFacts (applyInternalFact st f) rest).approvals = _
    have h1 := ih (applyInternalFact st f)
    have h2 := applyInternalFact_other st f
    exact ⟨h1.1.trans h2.1, h1.2.trans h2.2⟩

/-! ## The trace walk as a replay of its emitted facts -/

/-- The one-node step's state change is exactly the replay of the facts
it emits. -/
theorem walkNodeStep_state (tx : TxData) (c : CallNode) (d : Nat)
    (st : RunState) :
    (walkNodeStep tx c d st).1 = applyFacts st (walkNodeStep tx c d st).2 := by
  simp only [walkNodeStep]
  repeat' split
  all_goals rfl

/-- The one-node step only emits `trace_edge` and
`internal_native_transfer` facts. -/
theorem walkNodeStep_shape (tx : TxData) (c : CallNode) (d : Nat)
    (st : RunState) :
    ∀ g ∈ (walkNodeStep tx c d st).2,
      g.isTraceEdge = true ∨ g.isInternal = true := by
  intro g hg
  simp only [walkNodeStep] at hg
  repeat' split at hg
  all_goals simp at hg
  all_goals
    first
      | (rcases hg with h | h
         · exact Or.inl (by rw [h]; rfl)
         · exact Or.inr (by rw [h]; rfl))
      | exact Or.inl (by rw [hg]; rfl)

mutual

/-- The walk's final state is the initial state with the walk's emitted
facts replayed (so every state invariant can be argued over the flat
fact list instead of the tree recursion). -/
theorem walkNode_state (tx : TxData) (c : CallNode) (d : Nat)
    (st : RunState) :
    (walkNode tx c d st).1 = applyFacts st (walkNode tx c d st).2 := by
  cases c with
  | mk fromA toA cType val inp out0 rr children =>
    simp only [walkNode]
    rw [applyFacts_append]
    rw [← walkNodeStep_state]
    exact walkNodes_state tx children (d + 1)
      (walkNodeStep tx (.mk fromA toA cType val inp out0 rr children) d st).1

theorem walkNodes_state (tx : TxData) (cs : List CallNode) (d : Nat)
    (st : RunState) :
    (walkNodes tx cs d st).1 = applyFacts st (walkNodes tx cs d st).2 := by
  cases cs with
  | nil => simp [walkNodes, applyFacts]
  | cons c rest =>
    simp only [walkNodes]
    rw [applyFacts_append]
    rw [← walkNode_state]
    exact walkNodes_state tx rest d (walkNode tx c d st).1

end

mutual

/-- The walk only emits `trace_edge` and `internal_native_transfer`
facts. -/
theorem walkNode_shape (tx : TxData) (c : CallNode) (d : Nat)
    (st : RunState) :
    ∀ g ∈ (walkNode tx c d st).2,
      g.isTraceEdge = true ∨ g.isInternal = true := by
  cases c with
  | mk fromA toA cType val inp out0 rr children =>
    simp only [walkNode]
    intro g hg
    rcases List.mem_append.mp hg with h | h
    · exact walkNodeStep_shape tx _ d st g h
    · exact walkNodes_shape tx children (d + 1) _ g h

theorem walkNodes_shape (tx : TxData) (cs : List CallNode) (d : Nat)
    (st : RunState) :
    ∀ g ∈ (walkNodes tx cs d st).2,
      g.isTraceEdge = true ∨ g.isInternal = true := by
  cases cs with
  | nil => intro g hg; simp [walkNodes] at hg
  | cons c rest =>
    simp only [walkNodes]
    intro g hg
    rcases List.mem_append.mp hg with h | h
    · exact walkNode_shape tx c d st g h
    · exact walkNodes_shape tx rest d _ g h

end

/-! ## Per-phase characterizations -/

theorem ethTransferStep_facts (tx : TxData) (st : RunState) :
    (ethTransferStep tx st).2 = ethTransferFacts tx := by
  unfold ethTransferStep ethTransferFacts
  cases tx.toAddr with
  | none => rfl
  | some t =>
    by_cases h : 0 < tx.value
    · simp only [h, if_true]
    · simp only [h, if_false]

theorem erc20Step_split (tx : TxData) (st : RunState) :
    erc20Step tx st =
      ((transfersOf tx).foldl (fun s t => erc20ProfStep t s) st,
       erc20TransferFacts tx) := by
  unfold erc20Step erc20TransferFacts
  suffices h : ∀ (l : List TransferDec) (s : RunState) (acc : List Fact),
      l.foldl (fun acc t =>
        (erc20ProfStep t acc.1,
         acc.2 ++ [Fact.assetTransfer (mkErc20Transfer tx t),
                   Fact.fundFlowEdge (mkErc20Transfer tx t)])) (s, acc) =
      (l.foldl (fun s t => erc20ProfStep t s) s,
       acc ++ l.flatMap (fun t =>
         [Fact.assetTransfer (mkErc20Transfer tx t),
          Fact.fundFlowEdge (mkErc20Transfer tx t)])) by
    rw [h (transfersOf tx) st []]
    simp
  intro l
  induction l with
  | nil => intro s acc; simp
  | cons t rest ih =>
    intro s acc
    simp only [List.foldl_cons, List.flatMap_cons]
    rw [ih]
    simp [List.append_assoc]

theorem approvalsStep_split (tx : TxData) (st : RunState) :
    approvalsStep tx st =
      (tx.logs.enum.foldl (approvalsRegStep tx) st,
       tx.logs.enum.flatMap (approvalFactsOfLog tx)) := by
  unfold approvalsStep
  suffices h : ∀ (l : List (Nat × LogRec)) (s : RunState) (acc : List Fact),
      l.foldl (fun acc pair =>
        (approvalsRegStep tx acc.1 pair,
         acc.2 ++ approvalFactsOfLog tx pair)) (s, acc) =
      (l.foldl (approvalsRegStep tx) s,
       acc ++ l.flatMap (approvalFactsOfLog tx)) by
    rw [h tx.logs.enum st []]
    simp
  intro l
  induction l with
  | nil => intro s acc; simp
  | cons p rest ih =>
    intro s acc
    simp only [List.foldl_cons, List.flatMap_cons]
    rw [ih]
    simp [List.append_assoc]

theorem profileTouchStep_frame (tx : TxData) (st : RunState) :
    (profileTouchStep tx st).methodStats = st.methodStats ∧
    (profileTouchStep tx st).approvals = st.approvals := by
  unfold profileTouchStep
  cases tx.toAddr with
  | none => exact ⟨rfl, rfl⟩
  | some t => exact ⟨rfl, rfl⟩

theorem methodStatStep_frame (tx : TxData) (st : RunState) :
    (methodStatStep tx st).prof = st.prof ∧
    (methodStatStep tx st).approvals = st.approvals := by
  unfold methodStatStep
  cases tx.toAddr with
  | none => exact ⟨rfl, rfl⟩
  | some t =>
    by_cases h : methodIdOf tx ≠ [] <;> simp [h]

theorem ethTransferStep_frame (tx : TxData) (st : RunState) :
    (ethTransferStep tx st).1.methodStats = st.methodStats ∧
    (ethTransferStep tx st).1.approvals = st.approvals := by
  unfold ethTransferStep
  cases tx.toAddr with
  | none => exact ⟨rfl, rfl⟩
  | some t =>
    by_cases h : 0 < tx.value <;> simp [h]

theorem erc20Fold_frame (l : List TransferDec) (st : RunState) :
    (l.foldl (fun s t => erc20ProfStep t s) st).methodStats =
      st.methodStats ∧
    (l.foldl (fun s t => erc20ProfStep t s) st).approvals = st.approvals := by
  induction l generalizing st with
  | nil => exact ⟨rfl, rfl⟩
  | cons t rest ih =>
    simp only [List.foldl_cons]
    have h1 := ih (erc20ProfStep t st)
    exact ⟨h1.1, h1.2⟩

theorem traceStep_frame (tx : TxData) (st : RunState) :
    (traceStep tx st).1.methodStats = st.methodStats ∧
    (traceStep tx st).1.approvals = st.approvals := by
  unfold traceStep
  cases tx.trace with
  | none => exact ⟨rfl, rfl⟩
  | some root =>
    have h1 := walkNode_state tx root 0 st
    have h2 := applyFacts_other st (walkNode tx root 0 st).2
    exact ⟨h1 ▸ h2.1, h1 ▸ h2.2⟩

theorem approvalsRegStep_frame (tx : TxData) (s : RunState)
    (pair : Nat × LogRec) :
    (approvalsRegStep tx s pair).prof = s.prof ∧
    (approvalsRegStep tx s pair).methodStats = s.methodStats := by
  unfold approvalsRegStep
  cases decodeApprovalEvent pair.2 with
  | none => exact ⟨rfl, rfl⟩
  | some a => exact ⟨rfl, rfl⟩

theorem approvalsFold_frame (tx : TxData) (l : List (Nat × LogRec))
    (st : RunState) :
    (l.foldl (approvalsRegStep tx) st).prof = st.prof ∧
    (l.foldl (approvalsRegStep tx) st).methodStats = st.methodStats := by
  induction l generalizing st with
  | nil => exact ⟨rfl, rfl⟩
  | cons p rest ih =>
    simp only [List.foldl_cons]
    have h1 := ih (approvalsRegStep tx st p)
    have h2 := approvalsRegStep_frame tx st p
    exact ⟨h1.1.trans h2.1, h1.2.trans h2.2⟩

/-! ## Zero-sum lemmas for fact lists without the relevant kind -/

theorem natTransferIn_zero_of_no_asset (fs : List Fact) (a : Addr)
    (h : ∀ g ∈ fs, g.isAssetTransferFact = false) :
    natTransferIn fs a = 0 := by
  induction fs with
  | nil => rfl
  | cons g rest ih =>
    have hg := h g (List.mem_cons_self _ _)
    have ih2 := ih (fun g2 hg2 => h g2 (List.mem_cons_of_mem _ hg2))
    unfold natTransferIn at ih2 ⊢
    simp only [List.map_cons, List.sum_cons, ih2]
    cases g <;> simp [Fact.isAssetTransferFact] at hg ⊢

theorem natTransferOut_zero_of_no_asset (fs : List Fact) (a : Addr)
    (h : ∀ g ∈ fs, g.isAssetTransferFact = false) :
    natTransferOut fs a = 0 := by
  induction fs with
  | nil => rfl
  | cons g rest ih =>
    have hg := h g (List.mem_cons_self _ _)
    have ih2 := ih (fun g2 hg2 => h g2 (List.mem_cons_of_mem _ hg2))
    unfold natTransferOut at ih2 ⊢
    simp only [List.map_cons, List.sum_cons, ih2]
    cases g <;> simp [Fact.isAssetTransferFact] at hg ⊢

theorem internalIn_zero_of_no_internal (fs : List Fact) (a : Addr)
    (h : ∀ g ∈ fs, g.isInternal = false) : internalIn fs a = 0 := by
  induction fs with
  | nil => rfl
  | cons g rest ih =>
    have hg := h g (List.mem_cons_self _ _)
    have ih2 := ih (fun g2 hg2 => h g2 (List.mem_cons_of_mem _ hg2))
    unfold internalIn at ih2 ⊢
    simp only [List.map_cons, List.sum_cons, ih2]
    cases g <;> simp [Fact.isInternal] at hg ⊢

theorem internalOut_zero_of_no_internal (fs : List Fact) (a : Addr)
    (h : ∀ g ∈ fs, g.isInternal = false) : internalOut fs a = 0 := by
  induction fs with
  | nil => rfl
  | cons g rest ih =>
    have hg := h g (List.mem_cons_self _ _)
    have ih2 := ih (fun g2 hg2 => h g2 (List.mem_cons_of_mem _ hg2))
    unfold internalOut at ih2 ⊢
    simp only [List.map_cons, List.sum_cons, ih2]
    cases g <;> simp [Fact.isInternal] at hg ⊢

/-! ## Eth accounting through each phase -/

theorem ethInOf_eq_of_prof (st st2 : RunState) (h : st.prof = st2.prof)
    (a : Addr) : ethInOf st a = ethInOf st2 a := by
  unfold ethInOf profileOf profileOfMap
  rw [h]

theorem ethOutOf_eq_of_prof (st st2 : RunState) (h : st.prof = st2.prof)
    (a : Addr) : ethOutOf st a = ethOutOf st2 a := by
  unfold ethOutOf profileOf profileOfMap
  rw [h]

theorem profileTouchStep_eth (tx : TxData) (st : RunState) (a : Addr) :
    ethInOf (profileTouchStep tx st) a = ethInOf st a ∧
    ethOutOf (profileTouchStep tx st) a = ethOutOf st a := by
  unfold profileTouchStep
  cases htx : tx.toAddr with
  | none =>
    constructor
    · exact ethInOfMap_update_preserve st.prof tx.fromAddr (fromProfUpd tx)
        (fun p => (fromProfUpd_proj tx p).1) a
    · exact ethOutOfMap_update_preserve st.prof tx.fromAddr (fromProfUpd tx)
        (fun p => (fromProfUpd_proj tx p).2.1) a
  | some t =>
    constructor
    · have h1 := ethInOfMap_update_preserve
        (alUpdate tx.fromAddr (initProfile tx.fromAddr) (fromProfUpd tx)
          st.prof) t (toProfUpd tx) (fun p => (toProfUpd_proj tx p).1) a
      have h2 := ethInOfMap_update_preserve st.prof tx.fromAddr
        (fromProfUpd tx) (fun p => (fromProfUpd_proj tx p).1) a
      exact h1.trans h2
    · have h1 := ethOutOfMap_update_preserve
        (alUpdate tx.fromAddr (initProfile tx.fromAddr) (fromProfUpd tx)
          st.prof) t (toProfUpd tx) (fun p => (toProfUpd_proj tx p).2.1) a
      have h2 := ethOutOfMap_update_preserve st.prof tx.fromAddr
        (fromProfUpd tx) (fun p => (fromProfUpd_proj tx p).2.1) a
      exact h1.trans h2

theorem natTransferIn_native_pair (tx : TxData) (t : Addr) (a : Addr) :
    natTransferIn [Fact.assetTransfer (mkNativeTransfer tx t),
      Fact.fundFlowEdge (mkNativeTransfer tx t)] a =
      if t = a then tx.value else 0 := by
  by_cases h : t = a
  · simp [natTransferIn, mkNativeTransfer, h]
  · simp [natTransferIn, mkNativeTransfer, h]

theorem natTransferOut_native_pair (tx : TxData) (t : Addr) (a : Addr) :
    natTransferOut [Fact.assetTransfer (mkNativeTransfer tx t),
      Fact.fundFlowEdge (mkNativeTransfer tx t)] a =
      if tx.fromAddr = a then tx.value else 0 := by
  by_cases h : tx.fromAddr = a
  · simp [natTransferOut, mkNativeTransfer, h]
  · simp [natTransferOut, mkNativeTransfer, h]

theorem ethTransferStep_eth (tx : TxData) (st : RunState) (a : Addr) :
    ethInOf (ethTransferStep tx st).1 a =
      ethInOf st a + natTransferIn (ethTransferFacts tx) a ∧
    ethOutOf (ethTransferStep tx st).1 a =
      ethOutOf st a + natTransferOut (ethTransferFacts tx) a := by
  unfold ethTransferStep ethTransferFacts
  cases htx : tx.toAddr with
  | none => constructor <;> simp [natTransferIn, natTransferOut]
  | some t =>
    by_cases h : 0 < tx.value
    · simp only [h, if_true]
      constructor
      · have h1 := ethInOfMap_update_add
          (alUpdate tx.fromAddr (initProfile tx.fromAddr)
            (ethOutUpd tx.value t) st.prof) t (ethInUpd tx.value) tx.value
          (fun p => rfl) a
        have h2 := ethInOfMap_update_preserve st.prof tx.fromAddr
          (ethOutUpd tx.value t) (fun p => rfl) a
        show (profileOfMap (alUpdate t (initProfile t) (ethInUpd tx.value)
          (alUpdate tx.fromAddr (initProfile tx.fromAddr)
            (ethOutUpd tx.value t) st.prof)) a).eth_in_wei = _
        rw [h1, h2, natTransferIn_native_pair]
        by_cases h4 : a = t
        · rw [if_pos h4, if_pos h4.symm]
          rfl
        · rw [if_neg h4, if_neg (fun he => h4 he.symm)]
          rfl
      · have h1 := ethOutOfMap_update_preserve
          (alUpdate tx.fromAddr (initProfile tx.fromAddr)
            (ethOutUpd tx.value t) st.prof) t (ethInUpd tx.value)
          (fun p => rfl) a
        have h2 := ethOutOfMap_update_add st.prof tx.fromAddr
          (ethOutUpd tx.value t) tx.value (fun p => rfl) a
        show (profileOfMap (alUpdate t (initProfile t) (ethInUpd tx.value)
          (alUpdate tx.fromAddr (initProfile tx.fromAddr)
            (ethOutUpd tx.value t) st.prof)) a).eth_out_wei = _
        rw [h1, h2, natTransferOut_native_pair]
        by_cases h4 : a = tx.fromAddr
        · rw [if_pos h4, if_pos h4.symm]
          rfl
        · rw [if_neg h4, if_neg (fun he => h4 he.symm)]
          rfl
    · simp [h, natTransferIn, natTransferOut]

theorem erc20ProfStep_eth (t : TransferDec) (st : RunState) (a : Addr) :
    ethInOf (erc20ProfStep t st) a = ethInOf st a ∧
    ethOutOf (erc20ProfStep t st) a = ethOutOf st a := by
  constructor
  · have h1 := ethInOfMap_update_preserve
      (alUpdate t.fromAddr (initProfile t.fromAddr)
        (erc20OutUpd t.tokenAddr t.amount) st.prof) t.toAddr
      (erc20InUpd t.tokenAddr t.amount) (fun p => rfl) a
    have h2 := ethInOfMap_update_preserve st.prof t.fromAddr
      (erc20OutUpd t.tokenAddr t.amount) (fun p => rfl) a
    exact h1.trans h2
  · have h1 := ethOutOfMap_update_preserve
      (alUpdate t.fromAddr (initProfile t.fromAddr)
        (erc20OutUpd t.tokenAddr t.amount) st.prof) t.toAddr
      (erc20InUpd t.tokenAddr t.amount) (fun p => rfl) a
    have h2 := ethOutOfMap_update_preserve st.prof t.fromAddr
      (erc20OutUpd t.tokenAddr t.amount) (fun p => rfl) a
    exact h1.trans h2

theorem erc20Fold_eth (l : List TransferDec) (st : RunState) (a : Addr) :
    ethInOf (l.foldl (fun s t => erc20ProfStep t s) st) a = ethInOf st a ∧
    ethOutOf (l.foldl (fun s t => erc20ProfStep t s) st) a = ethOutOf st a := by
  induction l generalizing st with
  | nil => exact ⟨rfl, rfl⟩
  | cons t rest ih =>
    simp only [List.foldl_cons]
    have h1 := ih (erc20ProfStep t st)
    have h2 := erc20ProfStep_eth t st a
    exact ⟨h1.1.trans h2.1, h1.2.trans h2.2⟩

theorem erc20Facts_sums (tx : TxData) (a : Addr) :
    natTransferIn (erc20TransferFacts tx) a = 0 ∧
    natTransferOut (erc20TransferFacts tx) a = 0 ∧
    internalIn (erc20TransferFacts tx) a = 0 ∧
    internalOut (erc20TransferFacts tx) a = 0 := by
  unfold erc20TransferFacts
  induction transfersOf tx with
  | nil => exact ⟨rfl, rfl, rfl, rfl⟩
  | cons t rest ih =>
    simp only [List.flatMap_cons]
    rw [natTransferIn_append, natTransferOut_append, internalIn_append,
      internalOut_append]
    have hne : ("erc20" : String) ≠ "native" := by decide
    refine ⟨?_, ?_, ?_, ?_⟩
    · rw [ih.1]
      simp [natTransferIn, mkErc20Transfer, hne]
    · rw [ih.2.1]
      simp [natTransferOut, mkErc20Transfer, hne]
    · rw [ih.2.2.1]
      simp [internalIn]
    · rw [ih.2.2.2]
      simp [internalOut]

theorem traceStep_eth (tx : TxData) (st : RunState) (a : Addr) :
    ethInOf (traceStep tx st).1 a =
      ethInOf st a + internalIn (traceStep tx st).2 a ∧
    ethOutOf (traceStep tx st).1 a =
      ethOutOf st a + internalOut (traceStep tx st).2 a := by
  unfold traceStep
  cases htr : tx.trace with
  | none => constructor <;> simp [internalIn, internalOut]
  | some root =>
    have hst := walkNode_state tx root 0 st
    constructor
    · show ethInOf (walkNode tx root 0 st).1 a = _
      rw [hst, ethInOf_applyFacts]
      show _ = ethInOf st a +
        internalIn (Fact.traceCallDoc tx.txHash tx.blockNumber ::
          (walkNode tx root 0 st).2) a
      unfold internalIn
      simp only [List.map_cons, List.sum_cons]
      omega
    · show ethOutOf (walkNode tx root 0 st).1 a = _
      rw [hst, ethOutOf_applyFacts]
      show _ = ethOutOf st a +
        internalOut (Fact.traceCallDoc tx.txHash tx.blockNumber ::
          (walkNode tx root 0 st).2) a
      unfold internalOut
      simp only [List.map_cons, List.sum_cons]
      omega

theorem traceStep_no_asset (tx : TxData) (st : RunState) (a : Addr) :
    natTransferIn (traceStep tx st).2 a = 0 ∧
    natTransferOut (traceStep tx st).2 a = 0 := by
  have hsh : ∀ g ∈ (traceStep tx st).2, g.isAssetTransferFact = false := by
    intro g hg
    unfold traceStep at hg
    cases htr : tx.trace with
    | none => rw [htr] at hg; simp at hg
    | some root =>
      rw [htr] at hg
      rcases List.mem_cons.mp hg with h | h
      · rw [h]; rfl
      · rcases walkNode_shape tx root 0 st g h with h2 | h2
        · cases g <;> simp [Fact.isTraceEdge] at h2 <;> rfl
        · cases g <;> simp [Fact.isInternal] at h2 <;> rfl
  exact ⟨natTransferIn_zero_of_no_asset _ a hsh,
    natTransferOut_zero_of_no_asset _ a hsh⟩

theorem ethFacts_no_internal (tx : TxData) :
    ∀ g ∈ ethTransferFacts tx, g.isInternal = false := by
  intro g hg
  unfold ethTransferFacts at hg
  cases htx : tx.toAddr with
  | none => simp only [htx] at hg; simp at hg
  | some t =>
    simp only [htx] at hg
    by_cases h : 0 < tx.value
    · rw [if_pos h] at hg
      rcases List.mem_cons.mp hg with h2 | h2
      · rw [h2]; rfl
      · rcases List.mem_cons.mp h2 with h3 | h3
        · rw [h3]; rfl
        · simp at h3
    · rw [if_neg h] at hg
      simp at hg

theorem revertStep_no_facts (tx : TxData) :
    ∀ g ∈ revertStep tx,
      g.isAssetTransferFact = false ∧ g.isInternal = false := by
  intro g hg
  unfold revertStep at hg
  by_cases h : statusString tx = "revert"
  · rw [if_pos h] at hg
    rcases List.mem_cons.mp hg with h2 | h2
    · rw [h2]; exact ⟨rfl, rfl⟩
    · simp at h2
  · rw [if_neg h] at hg
    simp at hg

theorem approvalFacts_no_facts (tx : TxData) :
    ∀ g ∈ tx.logs.enum.flatMap (approvalFactsOfLog tx),
      g.isAssetTransferFact = false ∧ g.isInternal = false := by
  intro g hg
  rcases List.mem_flatMap.mp hg with ⟨pair, _, hgin⟩
  unfold approvalFactsOfLog at hgin
  cases hd : decodeApprovalEvent pair.2 with
  | none => rw [hd] at hgin; simp at hgin
  | some a2 =>
    rw [hd] at hgin
    rcases List.mem_cons.mp hgin with h | h
    · rw [h]; exact ⟨rfl, rfl⟩
    · rcases List.mem_cons.mp h with h2 | h2
      · rw [h2]; exact ⟨rfl, rfl⟩
      · simp at h2

theorem usageStep_all (tx : TxData) (st : RunState) :
    ∀ g ∈ usageStep tx st, ∃ u, g = Fact.allowanceUsage u := by
  intro g hg
  unfold usageStep at hg
  by_cases h : methodIdOf tx = TRANSFER_FROM_SELECTOR
  · rw [if_pos h] at hg
    rcases List.mem_filterMap.mp hg with ⟨t, _, hsome⟩
    cases hf : (st.approvals.find? (usageKeyMatch t tx.fromAddr)) with
    | none => rw [hf] at hsome; simp at hsome
    | some kv =>
      rw [hf] at hsome
      exact ⟨_, (Option.some.inj hsome).symm⟩
  · rw [if_neg h] at hg
    simp at hg

theorem usageStep_no_facts (tx : TxData) (st : RunState) :
    ∀ g ∈ usageStep tx st,
      g.isAssetTransferFact = false ∧ g.isInternal = false := by
  intro g hg
  obtain ⟨u, hu⟩ := usageStep_all tx st g hg
  rw [hu]
  exact ⟨rfl, rfl⟩

theorem approvalsStep_eth (tx : TxData) (s : RunState) (a : Addr) :
    ethInOf (approvalsStep tx s).1 a = ethInOf s a ∧
    ethOutOf (approvalsStep tx s).1 a = ethOutOf s a := by
  rw [approvalsStep_split]
  exact ⟨ethInOf_eq_of_prof _ _ (approvalsFold_frame tx _ s).1 a,
    ethOutOf_eq_of_prof _ _ (approvalsFold_frame tx _ s).1 a⟩

theorem erc20Step_eth (tx : TxData) (s : RunState) (a : Addr) :
    ethInOf (erc20Step tx s).1 a = ethInOf s a ∧
    ethOutOf (erc20Step tx s).1 a = ethOutOf s a := by
  rw [erc20Step_split]
  exact ⟨(erc20Fold_eth (transfersOf tx) s a).1,
    (erc20Fold_eth (transfersOf tx) s a).2⟩

theorem methodStatStep_eth (tx : TxData) (s : RunState) (a : Addr) :
    ethInOf (methodStatStep tx s) a = ethInOf s a ∧
    ethOutOf (methodStatStep tx s) a = ethOutOf s a := by
  exact ⟨ethInOf_eq_of_prof _ _ (methodStatStep_frame tx s).1 a,
    ethOutOf_eq_of_prof _ _ (methodStatStep_frame tx s).1 a⟩

/-- The per-transaction processor, with its let chain expanded. -/
theorem processTx_unfold (st : RunState) (tx : TxData) :
    processTx st tx =
      ((approvalsStep tx (traceStep tx (erc20Step tx (ethTransferStep tx
         (methodStatStep tx (profileTouchStep tx st))).1).1).1).1,
       [Fact.txEnriched (mkTxEnriched tx),
        Fact.blockTxOrder (mkBlockTxOrder tx),
        Fact.contractCall (mkContractCall tx)] ++
       (ethTransferStep tx (methodStatStep tx (profileTouchStep tx st))).2 ++
       (erc20Step tx (ethTransferStep tx
         (methodStatStep tx (profileTouchStep tx st))).1).2 ++
       (traceStep tx (erc20Step tx (ethTransferStep tx
         (methodStatStep tx (profileTouchStep tx st))).1).1).2 ++
       revertStep tx ++
       (approvalsStep tx (traceStep tx (erc20Step tx (ethTransferStep tx
         (methodStatStep tx (profileTouchStep tx st))).1).1).1).2 ++
       usageStep tx (approvalsStep tx (traceStep tx (erc20Step tx
         (ethTransferStep tx
           (methodStatStep tx (profileTouchStep tx st))).1).1).1).1) := rfl

/-- Per transaction, each address's eth totals change exactly by the
native `asset_transfer` amounts plus the `internal_native_transfer`
amounts emitted for that transaction. -/
theorem processTx_eth (st : RunState) (tx : TxData) (a : Addr) :
    ethInOf (processTx st tx).1 a =
      ethInOf st a + natTransferIn (processTx st tx).2 a +
        internalIn (processTx st tx).2 a ∧
    ethOutOf (processTx st tx).1 a =
      ethOutOf st a + natTransferOut (processTx st tx).2 a +
        internalOut (processTx st tx).2 a := by
  rw [processTx_unfold]
  simp only [natTransferIn_append, natTransferOut_append, internalIn_append,
    internalOut_append]
  have hhead_ni :
      natTransferIn [Fact.txEnriched (mkTxEnriched tx),
        Fact.blockTxOrder (mkBlockTxOrder tx),
        Fact.contractCall (mkContractCall tx)] a = 0 := rfl
  have hhead_no :
      natTransferOut [Fact.txEnriched (mkTxEnriched tx),
        Fact.blockTxOrder (mkBlockTxOrder tx),
        Fact.contractCall (mkContractCall tx)] a = 0 := rfl
  have hhead_ii :
      internalIn [Fact.txEnriched (mkTxEnriched tx),
        Fact.blockTxOrder (mkBlockTxOrder tx),
        Fact.contractCall (mkContractCall tx)] a = 0 := rfl
  have hhead_io :
      internalOut [Fact.txEnriched (mkTxEnriched tx),
        Fact.blockTxOrder (mkBlockTxOrder tx),
        Fact.contractCall (mkContractCall tx)] a = 0 := rfl
  have herc := erc20Facts_sums tx a
  have herc_facts :
      (erc20Step tx (ethTransferStep tx
        (methodStatStep tx (profileTouchStep tx st))).1).2 =
      erc20TransferFacts tx := by
    rw [erc20Step_split]
  have htrna := traceStep_no_asset tx
    (erc20Step tx (ethTransferStep tx
      (methodStatStep tx (profileTouchStep tx st))).1).1 a
  have hrevf := revertStep_no_facts tx
  have hrev_ni := natTransferIn_zero_of_no_asset (revertStep tx) a
    (fun g hg => (hrevf g hg).1)
  have hrev_no := natTransferOut_zero_of_no_asset (revertStep tx) a
    (fun g hg => (hrevf g hg).1)
  have hrev_ii := internalIn_zero_of_no_internal (revertStep tx) a
    (fun g hg => (hrevf g hg).2)
  have hrev_io := internalOut_zero_of_no_internal (revertStep tx) a
    (fun g hg => (hrevf g hg).2)
  have happrov_facts :
      (approvalsStep tx (traceStep tx (erc20Step tx (ethTransferStep tx
        (methodStatStep tx (profileTouchStep tx st))).1).1).1).2 =
      tx.logs.enum.flatMap (approvalFactsOfLog tx) := by
    rw [approvalsStep_split]
  have happrf := approvalFacts_no_facts tx
  have husef := usageStep_no_facts tx
    (approvalsStep tx (traceStep tx (erc20Step tx (ethTransferStep tx
      (methodStatStep tx (profileTouchStep tx st))).1).1).1).1
  have hethf := ethTransferStep_facts tx
    (methodStatStep tx (profileTouchStep tx st))
  have hethint := ethFacts_no_internal tx
  constructor
  · rw [(approvalsStep_eth tx _ a).1, (traceStep_eth tx _ a).1,
      (erc20Step_eth tx _ a).1, (ethTransferStep_eth tx _ a).1,
      (methodStatStep_eth tx _ a).1, (profileTouchStep_eth tx st a).1]
    rw [hhead_ni, hhead_ii, herc_facts, herc.1, herc.2.2.1, htrna.1, hrev_ni,
      hrev_ii, happrov_facts]
    rw [natTransferIn_zero_of_no_asset _ a (fun g hg => (happrf g hg).1)]
    rw [internalIn_zero_of_no_internal _ a (fun g hg => (happrf g hg).2)]
    rw [natTransferIn_zero_of_no_asset _ a (fun g hg => (husef g hg).1)]
    rw [internalIn_zero_of_no_internal _ a (fun g hg => (husef g hg).2)]
    rw [hethf]
    rw [internalIn_zero_of_no_internal _ a hethint]
    omega
  · rw [(approvalsStep_eth tx _ a).2, (traceStep_eth tx _ a).2,
      (erc20Step_eth tx _ a).2, (ethTransferStep_eth tx _ a).2,
      (methodStatStep_eth tx _ a).2, (profileTouchStep_eth tx st a).2]
    rw [hhead_no, hhead_io, herc_facts, herc.2.1, herc.2.2.2, htrna.2, hrev_no,
      hrev_io, happrov_facts]
    rw [natTransferOut_zero_of_no_asset _ a (fun g hg => (happrf g hg).1)]
    rw [internalOut_zero_of_no_internal _ a (fun g hg => (happrf g hg).2)]
    rw [natTransferOut_zero_of_no_asset _ a (fun g hg => (husef g hg).1)]
    rw [internalOut_zero_of_no_internal _ a (fun g hg => (husef g hg).2)]
    rw [hethf]
    rw [internalOut_zero_of_no_internal _ a hethint]
    omega

/-! ## Run-level accounting: the streaming fold -/

theorem runDerive_eq (txs : List TxData) :
    runDerive txs = txs.foldl deriveStep (initRunState, []) := rfl

theorem deriveFold_acc (txs : List TxData) :
    ∀ (s : RunState) (acc : List Fact),
      (txs.foldl deriveStep (s, acc)).1 =
        (txs.foldl deriveStep (s, [])).1 ∧
      (txs.foldl deriveStep (s, acc)).2 =
        acc ++ (txs.foldl deriveStep (s, [])).2 := by
  induction txs with
  | nil =>
    intro s acc
    exact ⟨rfl, (List.append_nil acc).symm⟩
  | cons tx rest ih =>
    intro s acc
    simp only [List.foldl_cons]
    have hstep : deriveStep (s, acc) tx =
        ((processTx s tx).1, acc ++ (processTx s tx).2) := rfl
    have hstep0 : deriveStep (s, []) tx =
        ((processTx s tx).1, (processTx s tx).2) := rfl
    rw [hstep, hstep0]
    obtain ⟨h1, h2⟩ := ih (processTx s tx).1 (acc ++ (processTx s tx).2)
    obtain ⟨h1a, h2a⟩ := ih (processTx s tx).1 (processTx s tx).2
    exact ⟨h1.trans h1a.symm, by rw [h2, h2a, List.append_assoc]⟩

theorem deriveFold_eth (txs : List TxData) :
    ∀ (s : RunState) (a : Addr),
      ethInOf (txs.foldl deriveStep (s, [])).1 a =
        ethInOf s a + natTransferIn (txs.foldl deriveStep (s, [])).2 a +
          internalIn (txs.foldl deriveStep (s, [])).2 a ∧
      ethOutOf (txs.foldl deriveStep (s, [])).1 a =
        ethOutOf s a + natTransferOut (txs.foldl deriveStep (s, [])).2 a +
          internalOut (txs.foldl deriveStep (s, [])).2 a := by
  induction txs with
  | nil =>
    intro s a
    have h1 : natTransferIn ([] : List Fact) a = 0 := rfl
    have h2 : natTransferOut ([] : List Fact) a = 0 := rfl
    have h3 : internalIn ([] : List Fact) a = 0 := rfl
    have h4 : internalOut ([] : List Fact) a = 0 := rfl
    simp only [List.foldl_nil]
    rw [h1, h2, h3, h4]
    omega
  | cons tx rest ih =>
    intro s a
    simp only [List.foldl_cons]
    have hstep0 : deriveStep (s, []) tx =
        ((processTx s tx).1, (processTx s tx).2) := rfl
    rw [hstep0]
    obtain ⟨h1, h2⟩ := deriveFold_acc rest (processTx s tx).1 (processTx s tx).2
    rw [h1, h2]
    obtain ⟨hin, hout⟩ := ih (processTx s tx).1 a
    obtain ⟨pin, pout⟩ := processTx_eth s tx a
    rw [natTransferIn_append, natTransferOut_append, internalIn_append,
      internalOut_append, hin, hout, pin, pout]
    omega

/-- Over a whole streaming run (starting from the empty accumulators),
each address's `eth_in_wei`/`eth_out_wei` is exactly the corresponding
native-transfer sum plus internal-transfer sum of the streamed facts. -/
theorem runDerive_eth (txs : List TxData) (a : Addr) :
    ethInOf (runDerive txs).1 a =
      natTransferIn (runDerive txs).2 a + internalIn (runDerive txs).2 a ∧
    ethOutOf (runDerive txs).1 a =
      natTransferOut (runDerive txs).2 a +
        internalOut (runDerive txs).2 a := by
  rw [runDerive_eq]
  obtain ⟨h1, h2⟩ := deriveFold_eth txs initRunState a
  have hin : ethInOf initRunState a = 0 := rfl
  have hout : ethOutOf initRunState a = 0 := rfl
  rw [h1, h2, hin, hout]
  omega

/-! ## Well-formedness of the profile map across the run -/

theorem setAdd_nodup (l : List Addr) (a : Addr) (h : l.Nodup) :
    (setAdd l a).Nodup := by
  unfold setAdd
  by_cases hm : a ∈ l
  · simpa [hm] using h
  · simp [hm, List.nodup_append, h]

theorem profTouchTs_good (ts : Option Nat) : profUpdGood (profTouchTs ts) := by
  intro p
  cases ts with
  | none => exact ⟨rfl, fun h => h⟩
  | some t =>
    unfold profTouchTs
    repeat' split
    all_goals exact ⟨rfl, fun h => h⟩

theorem profTouchBlock_good (bn : Nat) : profUpdGood (profTouchBlock bn) :=
  fun _ => ⟨rfl, fun h => h⟩

theorem fromProfUpd_good (tx : TxData) : profUpdGood (fromProfUpd tx) := by
  intro p
  obtain ⟨h1, h2⟩ := profTouchTs_good tx.timestamp
    { p with tx_out_count := p.tx_out_count + 1
             gas_spent_wei := p.gas_spent_wei + gasCostOf tx
             total_gas_used := p.total_gas_used + gasUsedOf tx }
  obtain ⟨h3, h4⟩ := profTouchBlock_good tx.blockNumber
    (profTouchTs tx.timestamp
      { p with tx_out_count := p.tx_out_count + 1
               gas_spent_wei := p.gas_spent_wei + gasCostOf tx
               total_gas_used := p.total_gas_used + gasUsedOf tx })
  exact ⟨h3.trans h1, fun h => h4 (h2 h)⟩

theorem toProfUpd_good (tx : TxData) : profUpdGood (toProfUpd tx) := by
  intro p
  obtain ⟨h1, h2⟩ := profTouchTs_good tx.timestamp
    { p with tx_in_count := p.tx_in_count + 1 }
  obtain ⟨h3, h4⟩ := profTouchBlock_good tx.blockNumber
    (profTouchTs tx.timestamp { p with tx_in_count := p.tx_in_count + 1 })
  exact ⟨h3.trans h1, fun h => h4 (h2 h)⟩

theorem ethOutUpd_good (v : Nat) (t : Addr) : profUpdGood (ethOutUpd v t) :=
  fun p => ⟨rfl, fun h => setAdd_nodup p.call_targets t h⟩

theorem ethInUpd_good (v : Nat) : profUpdGood (ethInUpd v) :=
  fun _ => ⟨rfl, fun h => h⟩

theorem walkOutUpd_good (v : Nat) (t : Addr) : profUpdGood (walkOutUpd v t) :=
  fun p => ⟨rfl, fun h => setAdd_nodup p.call_targets t h⟩

theorem walkInUpd_good (v : Nat) : profUpdGood (walkInUpd v) :=
  fun _ => ⟨rfl, fun h => h⟩

theorem erc20OutUpd_good (tok : Addr) (amt : Nat) :
    profUpdGood (erc20OutUpd tok amt) :=
  fun _ => ⟨rfl, fun h => h⟩

theorem erc20InUpd_good (tok : Addr) (amt : Nat) :
    profUpdGood (erc20InUpd tok amt) :=
  fun _ => ⟨rfl, fun h => h⟩

/-- `alUpdate` with a good updater preserves the profile-map
well-formedness conditions. -/
theorem profGood_alUpdate (m : List (Addr × Profile)) (k : Addr)
    (f : Profile → Profile) (hf : profUpdGood f)
    (h1 : (m.map Prod.fst).Nodup)
    (h2 : ∀ kv ∈ m, kv.2.address = kv.1 ∧ kv.2.call_targets.Nodup) :
    ((alUpdate k (initProfile k) f m).map Prod.fst).Nodup ∧
    ∀ kv ∈ alUpdate k (initProfile k) f m,
      kv.2.address = kv.1 ∧ kv.2.call_targets.Nodup := by
  refine ⟨alUpdate_keys_nodup k _ f m h1, ?_⟩
  intro kv hkv
  rcases alUpdate_mem k _ f m kv hkv with hmem | ⟨hk, hv⟩
  · exact h2 kv hmem
  · rcases hv with hv | ⟨v, hvm, hv⟩
    · obtain ⟨ha, hct⟩ := hf (initProfile k)
      rw [hv, hk]
      constructor
      · rw [ha]
        rfl
      · exact hct List.nodup_nil
    · obtain ⟨ha, hct⟩ := hf v
      obtain ⟨hva, hvct⟩ := h2 (k, v) hvm
      rw [hv, hk]
      exact ⟨by rw [ha]; exact hva, hct hvct⟩

theorem ProfOK_of_prof_eq (s1 s2 : RunState) (h : s2.prof = s1.prof)
    (hok : ProfOK s1) : ProfOK s2 := by
  unfold ProfOK at hok ⊢
  rw [h]
  exact hok

theorem ProfOK_profileTouchStep (tx : TxData) (st : RunState)
    (h : ProfOK st) : ProfOK (profileTouchStep tx st) := by
  obtain ⟨h1, h2⟩ := h
  have hst1 := profGood_alUpdate st.prof tx.fromAddr (fromProfUpd tx)
    (fromProfUpd_good tx) h1 h2
  simp only [profileTouchStep]
  cases htx : tx.toAddr with
  | none => exact ⟨hst1.1, hst1.2⟩
  | some t =>
    have hst2 := profGood_alUpdate _ t (toProfUpd tx) (toProfUpd_good tx)
      hst1.1 hst1.2
    exact ⟨hst2.1, hst2.2⟩

theorem ProfOK_methodStatStep (tx : TxData) (st : RunState)
    (h : ProfOK st) : ProfOK (methodStatStep tx st) :=
  ProfOK_of_prof_eq st _ (methodStatStep_frame tx st).1 h

theorem ProfOK_ethTransferStep (tx : TxData) (st : RunState)
    (h : ProfOK st) : ProfOK (ethTransferStep tx st).1 := by
  obtain ⟨h1, h2⟩ := h
  simp only [ethTransferStep]
  cases htx : tx.toAddr with
  | none => exact ⟨h1, h2⟩
  | some t =>
    by_cases hv : 0 < tx.value
    · simp only [hv, if_true]
      have hm1 := profGood_alUpdate st.prof tx.fromAddr
        (ethOutUpd tx.value t) (ethOutUpd_good tx.value t) h1 h2
      have hm2 := profGood_alUpdate _ t (ethInUpd tx.value)
        (ethInUpd_good tx.value) hm1.1 hm1.2
      exact ⟨hm2.1, hm2.2⟩
    · simp only [hv, if_false]
      exact ⟨h1, h2⟩

theorem ProfOK_erc20ProfStep (t : TransferDec) (st : RunState)
    (h : ProfOK st) : ProfOK (erc20ProfStep t st) := by
  obtain ⟨h1, h2⟩ := h
  simp only [erc20ProfStep]
  have hm1 := profGood_alUpdate st.prof t.fromAddr
    (erc20OutUpd t.tokenAddr t.amount) (erc20OutUpd_good _ _) h1 h2
  have hm2 := profGood_alUpdate _ t.toAddr
    (erc20InUpd t.tokenAddr t.amount) (erc20InUpd_good _ _) hm1.1 hm1.2
  exact ⟨hm2.1, hm2.2⟩

theorem ProfOK_erc20Fold (l : List TransferDec) :
    ∀ (st : RunState), ProfOK st →
      ProfOK (l.foldl (fun s t => erc20ProfStep t s) st) := by
  induction l with
  | nil => intro st h; exact h
  | cons t rest ih =>
    intro st h
    simp only [List.foldl_cons]
    exact ih _ (ProfOK_erc20ProfStep t st h)

theorem ProfOK_erc20Step (tx : TxData) (st : RunState)
    (h : ProfOK st) : ProfOK (erc20Step tx st).1 := by
  rw [erc20Step_split]
  exact ProfOK_erc20Fold (transfersOf tx) st h

theorem ProfOK_applyInternalFact (st : RunState) (f : Fact)
    (h : ProfOK st) : ProfOK (applyInternalFact st f) := by
  cases f
  case internalNativeTransfer r =>
    obtain ⟨h1, h2⟩ := h
    simp only [applyInternalFact]
    have hm1 := profGood_alUpdate st.prof r.fromAddr
      (walkOutUpd r.value_wei r.toAddr) (walkOutUpd_good _ _) h1 h2
    have hm2 := profGood_alUpdate _ r.toAddr (walkInUpd r.value_wei)
      (walkInUpd_good _) hm1.1 hm1.2
    exact ⟨hm2.1, hm2.2⟩
  all_goals exact h

theorem ProfOK_applyFacts (fs : List Fact) :
    ∀ (st : RunState), ProfOK st → ProfOK (applyFacts st fs) := by
  induction fs with
  | nil => intro st h; exact h
  | cons f rest ih =>
    intro st h
    simp only [applyFacts, List.foldl_cons]
    exact ih _ (ProfOK_applyInternalFact st f h)

theorem ProfOK_traceStep (tx : TxData) (st : RunState)
    (h : ProfOK st) : ProfOK (traceStep tx st).1 := by
  unfold traceStep
  cases htr : tx.trace with
  | none => exact h
  | some root =>
    show ProfOK (walkNode tx root 0 st).1
    rw [walkNode_state]
    exact ProfOK_applyFacts _ st h

theorem ProfOK_approvalsStep (tx : TxData) (st : RunState)
    (h : ProfOK st) : ProfOK (approvalsStep tx st).1 := by
  rw [approvalsStep_split]
  exact ProfOK_of_prof_eq st _ (approvalsFold_frame tx _ st).1 h

theorem ProfOK_processTx (st : RunState) (tx : TxData)
    (h : ProfOK st) : ProfOK (processTx st tx).1 := by
  rw [processTx_unfold]
  exact ProfOK_approvalsStep tx _ (ProfOK_traceStep tx _ (ProfOK_erc20Step tx _
    (ProfOK_ethTransferStep tx _ (ProfOK_methodStatStep tx _
      (ProfOK_profileTouchStep tx st h)))))

theorem ProfOK_initRunState : ProfOK initRunState := by
  unfold ProfOK
  exact ⟨List.nodup_nil, fun kv hkv => absurd hkv (List.not_mem_nil kv)⟩

theorem ProfOK_deriveFold (txs : List TxData) :
    ∀ (s : RunState) (acc : List Fact), ProfOK s →
      ProfOK (txs.foldl deriveStep (s, acc)).1 := by
  induction txs with
  | nil => intro s acc h; exact h
  | cons tx rest ih =>
    intro s acc h
    simp only [List.foldl_cons]
    have hstep : deriveStep (s, acc) tx =
        ((processTx s tx).1, acc ++ (processTx s tx).2) := rfl
    rw [hstep]
    exact ih _ _ (ProfOK_processTx s tx h)

/-- The profile map stays well-formed over the whole streaming run. -/
theorem ProfOK_runDerive (txs : List TxData) : ProfOK (runDerive txs).1 := by
  rw [runDerive_eq]
  exact ProfOK_deriveFold txs initRunState [] ProfOK_initRunState

/-! ## The flush, and which facts the streaming phase can emit -/

theorem flushFacts_flows (st : RunState) :
    ∀ g ∈ flushFacts st,
      g.isAssetTransferFact = false ∧ g.isInternal = false := by
  intro g hg
  unfold flushFacts at hg
  rcases List.mem_append.mp hg with h | h
  · obtain ⟨p, hp, hpe⟩ := List.mem_map.mp h
    rw [← hpe]
    exact ⟨rfl, rfl⟩
  · obtain ⟨p, hp, hpe⟩ := List.mem_map.mp h
    rw [← hpe]
    exact ⟨rfl, rfl⟩

theorem flushFacts_sums (st : RunState) (a : Addr) :
    natTransferIn (flushFacts st) a = 0 ∧
    natTransferOut (flushFacts st) a = 0 ∧
    internalIn (flushFacts st) a = 0 ∧
    internalOut (flushFacts st) a = 0 :=
  ⟨natTransferIn_zero_of_no_asset _ a (fun g hg => (flushFacts_flows st g hg).1),
   natTransferOut_zero_of_no_asset _ a (fun g hg => (flushFacts_flows st g hg).1),
   internalIn_zero_of_no_internal _ a (fun g hg => (flushFacts_flows st g hg).2),
   internalOut_zero_of_no_internal _ a (fun g hg => (flushFacts_flows st g hg).2)⟩

/-- On a well-formed state, a flushed `address_profile` record is the
accumulator profile stored for its own address. -/
theorem flush_profile_mem (st : RunState) (p : Profile) (hok : ProfOK st)
    (h : Fact.addressProfile p ∈ flushFacts st) :
    profileOf st p.address = p := by
  unfold flushFacts at h
  rcases List.mem_append.mp h with h | h
  · obtain ⟨kv, hkv, heq⟩ := List.mem_map.mp h
    have hp : kv.2 = p := by
      injection heq
    obtain ⟨haddr, hct⟩ := hok.2 kv hkv
    have hfind := alFind_of_mem_nodup st.prof kv hok.1 hkv
    unfold profileOf profileOfMap
    rw [← hp, haddr, hfind]
    rfl
  · obtain ⟨kv, hkv, heq⟩ := List.mem_map.mp h
    exact Fact.noConfusion heq

theorem fact_flow_not_aggregate (g : Fact)
    (h : g.isTraceEdge = true ∨ g.isInternal = true) :
    g.isAggregate = false := by
  cases g
  all_goals first
  | rfl
  | simp [Fact.isTraceEdge, Fact.isInternal] at h

theorem ethFacts_no_aggregate (tx : TxData) :
    ∀ g ∈ ethTransferFacts tx, g.isAggregate = false := by
  intro g hg
  unfold ethTransferFacts at hg
  cases htx : tx.toAddr with
  | none => simp only [htx] at hg; simp at hg
  | some t =>
    simp only [htx] at hg
    by_cases h : 0 < tx.value
    · rw [if_pos h] at hg
      rcases List.mem_cons.mp hg with h2 | h2
      · rw [h2]; rfl
      · simp at h2
        rw [h2]; rfl
    · rw [if_neg h] at hg
      simp at hg

theorem erc20Facts_no_aggregate (tx : TxData) :
    ∀ g ∈ erc20TransferFacts tx, g.isAggregate = false := by
  intro g hg
  unfold erc20TransferFacts at hg
  rcases List.mem_flatMap.mp hg with ⟨t, _, hgin⟩
  rcases List.mem_cons.mp hgin with h2 | h2
  · rw [h2]; rfl
  · simp at h2
    rw [h2]; rfl

theorem traceStep_no_aggregate (tx : TxData) (st : RunState) :
    ∀ g ∈ (traceStep tx st).2, g.isAggregate = false := by
  intro g hg
  unfold traceStep at hg
  cases htr : tx.trace with
  | none => simp only [htr] at hg; simp at hg
  | some root =>
    simp only [htr] at hg
    rcases List.mem_cons.mp hg with h2 | h2
    · rw [h2]; rfl
    · exact fact_flow_not_aggregate g (walkNode_shape tx root 0 st g h2)

theorem revertStep_no_aggregate (tx : TxData) :
    ∀ g ∈ revertStep tx, g.isAggregate = false := by
  intro g hg
  unfold revertStep at hg
  by_cases h : statusString tx = "revert"
  · rw [if_pos h] at hg
    rcases List.mem_cons.mp hg with h2 | h2
    · rw [h2]; rfl
    · simp at h2
  · rw [if_neg h] at hg
    simp at hg

theorem approvalFacts_no_aggregate (tx : TxData) :
    ∀ g ∈ tx.logs.enum.flatMap (approvalFactsOfLog tx),
      g.isAggregate = false := by
  intro g hg
  rcases List.mem_flatMap.mp hg with ⟨pair, _, hgin⟩
  unfold approvalFactsOfLog at hgin
  cases hd : decodeApprovalEvent pair.2 with
  | none => rw [hd] at hgin; simp at hgin
  | some a2 =>
    rw [hd] at hgin
    rcases List.mem_cons.mp hgin with h2 | h2
    · rw [h2]; rfl
    · simp at h2
      rw [h2]; rfl

/-- The streaming phase never emits an aggregate (`address_profile` or
`method_stat`) record: those only come from the final flush. -/
theorem processTx_no_aggregates (st : RunState) (tx : TxData) :
    ∀ g ∈ (processTx st tx).2, g.isAggregate = false := by
  rw [processTx_unfold]
  intro g hg
  simp only [List.mem_append] at hg
  rcases hg with ((((((hg | hg) | hg) | hg) | hg) | hg) | hg)
  · simp only [List.mem_cons] at hg
    rcases hg with h2 | h2 | h2
    · rw [h2]; rfl
    · rw [h2]; rfl
    · simp at h2
      rw [h2]; rfl
  · rw [ethTransferStep_facts] at hg
    exact ethFacts_no_aggregate tx g hg
  · have hsp : (erc20Step tx (ethTransferStep tx
        (methodStatStep tx (profileTouchStep tx st))).1).2 =
        erc20TransferFacts tx := by
      rw [erc20Step_split]
    rw [hsp] at hg
    exact erc20Facts_no_aggregate tx g hg
  · exact traceStep_no_aggregate tx _ g hg
  · exact revertStep_no_aggregate tx g hg
  · have hsp : (approvalsStep tx (traceStep tx (erc20Step tx
        (ethTransferStep tx
          (methodStatStep tx (profileTouchStep tx st))).1).1).1).2 =
        tx.logs.enum.flatMap (approvalFactsOfLog tx) := by
      rw [approvalsStep_split]
    rw [hsp] at hg
    exact approvalFacts_no_aggregate tx g hg
  · obtain ⟨u, hu⟩ := usageStep_all tx _ g hg
    rw [hu]; rfl

theorem deriveFold_no_aggregates (txs : List TxData) :
    ∀ (s : RunState) (acc : List Fact),
      (∀ g ∈ acc, Fact.isAggregate g = false) →
      ∀ g ∈ (txs.foldl deriveStep (s, acc)).2,
        Fact.isAggregate g = false := by
  induction txs with
  | nil => intro s acc h; exact h
  | cons tx rest ih =>
    intro s acc h
    simp only [List.foldl_cons]
    have hstep : deriveStep (s, acc) tx =
        ((processTx s tx).1, acc ++ (processTx s tx).2) := rfl
    rw [hstep]
    refine ih _ _ ?_
    intro g hg
    rcases List.mem_append.mp hg with h1 | h1
    · exact h g h1
    · exact processTx_no_aggregates s tx g h1

theorem runDerive_no_aggregates (txs : List TxData) :
    ∀ g ∈ (runDerive txs).2, Fact.isAggregate g = false := by
  rw [runDerive_eq]
  exact deriveFold_no_aggregates txs initRunState []
    (fun g hg => absurd hg (List.not_mem_nil g))

/-! ## C1: eth accounting of the flushed profiles -/

/-- **C1** (corrected): for every `address_profile` record in a run's
output, `eth_in_wei − eth_out_wei` equals the sum of the amounts of the
run's native `asset_transfer` facts into the address plus the
`internal_native_transfer` amounts into it, minus the corresponding
outgoing sums — the trace walk adds internal call values to the same
two eth totals while emitting `internal_native_transfer` (not native
`asset_transfer`) facts for them. -/
theorem eth_conservation (txs : List TxData) (p : Profile)
    (h : Fact.addressProfile p ∈ runPipeline txs) :
    (p.eth_in_wei : Int) - (p.eth_out_wei : Int) =
      ((natTransferIn (runPipeline txs) p.address +
        internalIn (runPipeline txs) p.address : Nat) : Int) -
      ((natTransferOut (runPipeline txs) p.address +
        internalOut (runPipeline txs) p.address : Nat) : Int) := by
  unfold runPipeline at h ⊢
  rcases List.mem_append.mp h with h1 | h1
  · have hf := runDerive_no_aggregates txs _ h1
    simp [Fact.isAggregate] at hf
  · have hok := ProfOK_runDerive txs
    have hp := flush_profile_mem (runDerive txs).1 p hok h1
    obtain ⟨hin, hout⟩ := runDerive_eth txs p.address
    obtain ⟨f1, f2, f3, f4⟩ := flushFacts_sums (runDerive txs).1 p.address
    rw [natTransferIn_append, natTransferOut_append, internalIn_append,
      internalOut_append, f1, f2, f3, f4]
    have hie : ethInOf (runDerive txs).1 p.address = p.eth_in_wei := by
      unfold ethInOf
      rw [hp]
    have hoe : ethOutOf (runDerive txs).1 p.address = p.eth_out_wei := by
      unfold ethOutOf
      rw [hp]
    rw [hie] at hin
    rw [hoe] at hout
    omega

/-- **C1** counterexample to the conservation law as the spec words it
(native `asset_transfer` sums only): in the one-transaction run of
`tracedEthTx` — a 5-wei transfer whose trace reports the same 5-wei
top-level call — the flushed profile of the recipient `"0xb"` has
`eth_in_wei − eth_out_wei = 10`, while the native `asset_transfer`
sums alone give `5 − 0`. -/
theorem eth_conservation_native_only_counterexample :
    Fact.addressProfile (profileOf (runDerive [tracedEthTx]).1 "0xb") ∈
        runPipeline [tracedEthTx] ∧
    ¬(((profileOf (runDerive [tracedEthTx]).1 "0xb").eth_in_wei : Int) -
        ((profileOf (runDerive [tracedEthTx]).1 "0xb").eth_out_wei : Int) =
      ((natTransferIn (runPipeline [tracedEthTx]) "0xb" : Nat) : Int) -
      ((natTransferOut (runPipeline [tracedEthTx]) "0xb" : Nat) : Int)) := by
  constructor
  · decide
  · decide

/-- Witness for the corrected C1 equation: the concrete one-transaction
run of `tracedEthTx`, at the flushed profile of the recipient. -/
theorem eth_conservation_witness :
    Fact.addressProfile (profileOf (runDerive [tracedEthTx]).1 "0xb") ∈
        runPipeline [tracedEthTx] ∧
    (((profileOf (runDerive [tracedEthTx]).1 "0xb").eth_in_wei : Int) -
        ((profileOf (runDerive [tracedEthTx]).1 "0xb").eth_out_wei : Int) =
      ((natTransferIn (runPipeline [tracedEthTx])
          (profileOf (runDerive [tracedEthTx]).1 "0xb").address +
        internalIn (runPipeline [tracedEthTx])
          (profileOf (runDerive [tracedEthTx]).1 "0xb").address : Nat) : Int) -
      ((natTransferOut (runPipeline [tracedEthTx])
          (profileOf (runDerive [tracedEthTx]).1 "0xb").address +
        internalOut (runPipeline [tracedEthTx])
          (profileOf (runDerive [tracedEthTx]).1 "0xb").address : Nat) : Int)) :=
  ⟨by decide, eth_conservation [tracedEthTx] _ (by decide)⟩

/-! ## Shape of each phase's emitted facts -/

theorem filter_nil_of_false {p : Fact → Bool} (l : List Fact)
    (h : ∀ g ∈ l, p g = false) : l.filter p = [] := by
  induction l with
  | nil => rfl
  | cons f rest ih =>
    have hf := h f (List.mem_cons_self f rest)
    simp [List.filter_cons, hf,
      ih (fun g hg => h g (List.mem_cons_of_mem f hg))]

theorem countP_zero_of_false {p : Fact → Bool} (l : List Fact)
    (h : ∀ g ∈ l, p g = false) : l.countP p = 0 := by
  induction l with
  | nil => rfl
  | cons f rest ih =>
    have hf := h f (List.mem_cons_self f rest)
    simp [List.countP_cons, hf,
      ih (fun g hg => h g (List.mem_cons_of_mem f hg))]

theorem any_false_of_all {p : Fact → Bool} (l : List Fact)
    (h : ∀ g ∈ l, p g = false) : l.any p = false := by
  induction l with
  | nil => rfl
  | cons f rest ih =>
    have hf := h f (List.mem_cons_self f rest)
    simp [List.any_cons, hf,
      ih (fun g hg => h g (List.mem_cons_of_mem f hg))]

theorem ethFacts_shape (tx : TxData) :
    ∀ g ∈ ethTransferFacts tx, ∃ t,
      g = Fact.assetTransfer (mkNativeTransfer tx t) ∨
      g = Fact.fundFlowEdge (mkNativeTransfer tx t) := by
  intro g hg
  unfold ethTransferFacts at hg
  cases htx : tx.toAddr with
  | none => simp only [htx] at hg; simp at hg
  | some t =>
    simp only [htx] at hg
    by_cases h : 0 < tx.value
    · rw [if_pos h] at hg
      rcases List.mem_cons.mp hg with h2 | h2
      · exact ⟨t, Or.inl h2⟩
      · simp at h2
        exact ⟨t, Or.inr h2⟩
    · rw [if_neg h] at hg
      simp at hg

theorem erc20Facts_shape (tx : TxData) :
    ∀ g ∈ erc20TransferFacts tx, ∃ t,
      g = Fact.assetTransfer (mkErc20Transfer tx t) ∨
      g = Fact.fundFlowEdge (mkErc20Transfer tx t) := by
  intro g hg
  unfold erc20TransferFacts at hg
  rcases List.mem_flatMap.mp hg with ⟨t, _, hgin⟩
  rcases List.mem_cons.mp hgin with h2 | h2
  · exact ⟨t, Or.inl h2⟩
  · simp at h2
    exact ⟨t, Or.inr h2⟩

theorem revertStep_shape (tx : TxData) :
    ∀ g ∈ revertStep tx, ∃ r, g = Fact.revertReasonDoc r := by
  intro g hg
  unfold revertStep at hg
  by_cases h : statusString tx = "revert"
  · rw [if_pos h] at hg
    rcases List.mem_cons.mp hg with h2 | h2
    · exact ⟨_, h2⟩
    · simp at h2
  · rw [if_neg h] at hg
    simp at hg

theorem approvalFacts_shape (tx : TxData) :
    ∀ g ∈ tx.logs.enum.flatMap (approvalFactsOfLog tx),
      (∃ r, g = Fact.approval r) ∨ (∃ r, g = Fact.allowanceEdge r) := by
  intro g hg
  rcases List.mem_flatMap.mp hg with ⟨pair, _, hgin⟩
  unfold approvalFactsOfLog at hgin
  cases hd : decodeApprovalEvent pair.2 with
  | none => rw [hd] at hgin; simp at hgin
  | some a2 =>
    rw [hd] at hgin
    rcases List.mem_cons.mp hgin with h2 | h2
    · exact Or.inl ⟨_, h2⟩
    · simp at h2
      exact Or.inr ⟨_, h2⟩

theorem flow_not_native (g : Fact)
    (h : g.isTraceEdge = true ∨ g.isInternal = true) :
    g.isNativeTransferFact = false ∧ g.isNativeFundFlow = false := by
  cases g
  all_goals first
  | exact ⟨rfl, rfl⟩
  | simp [Fact.isTraceEdge, Fact.isInternal] at h

theorem fact_flow_not_asset (g : Fact)
    (h : g.isTraceEdge = true ∨ g.isInternal = true) :
    g.isAssetTransferFact = false := by
  cases g
  all_goals first
  | rfl
  | simp [Fact.isTraceEdge, Fact.isInternal] at h

theorem erc20Facts_not_native (tx : TxData) :
    ∀ g ∈ erc20TransferFacts tx,
      g.isNativeTransferFact = false ∧ g.isNativeFundFlow = false := by
  intro g hg
  obtain ⟨t, h2 | h2⟩ := erc20Facts_shape tx g hg
  all_goals rw [h2]
  all_goals exact ⟨rfl, rfl⟩

theorem revertFacts_not_native (tx : TxData) :
    ∀ g ∈ revertStep tx,
      g.isNativeTransferFact = false ∧ g.isNativeFundFlow = false := by
  intro g hg
  obtain ⟨r, h2⟩ := revertStep_shape tx g hg
  rw [h2]
  exact ⟨rfl, rfl⟩

theorem approvalFacts_not_native (tx : TxData) :
    ∀ g ∈ tx.logs.enum.flatMap (approvalFactsOfLog tx),
      g.isNativeTransferFact = false ∧ g.isNativeFundFlow = false := by
  intro g hg
  rcases approvalFacts_shape tx g hg with ⟨r, h2⟩ | ⟨r, h2⟩
  all_goals rw [h2]
  all_goals exact ⟨rfl, rfl⟩

theorem usageFacts_not_native (tx : TxData) (s : RunState) :
    ∀ g ∈ usageStep tx s,
      g.isNativeTransferFact = false ∧ g.isNativeFundFlow = false := by
  intro g hg
  obtain ⟨u, hu⟩ := usageStep_all tx s g hg
  rw [hu]
  exact ⟨rfl, rfl⟩

theorem traceStep_not_native (tx : TxData) (st : RunState) :
    ∀ g ∈ (traceStep tx st).2,
      g.isNativeTransferFact = false ∧ g.isNativeFundFlow = false := by
  intro g hg
  unfold traceStep at hg
  cases htr : tx.trace with
  | none => simp only [htr] at hg; simp at hg
  | some root =>
    simp only [htr] at hg
    rcases List.mem_cons.mp hg with h2 | h2
    · rw [h2]; exact ⟨rfl, rfl⟩
    · exact flow_not_native g (walkNode_shape tx root 0 st g h2)

theorem traceStep_none (tx : TxData) (st : RunState) (h : tx.trace = none) :
    traceStep tx st = (st, []) := by
  unfold traceStep
  rw [h]

/-- The packed guard of the ETH TRANSFER block: its facts contain a
native `asset_transfer` (and a native `fund_flow_edge`) exactly when
the transaction has a recipient and a positive value. -/
theorem ethFacts_any_native (tx : TxData) :
    ((ethTransferFacts tx).any Fact.isNativeTransferFact = true ↔
      tx.toAddr.isSome = true ∧ 0 < tx.value) ∧
    ((ethTransferFacts tx).any Fact.isNativeFundFlow = true ↔
      tx.toAddr.isSome = true ∧ 0 < tx.value) := by
  unfold ethTransferFacts
  cases htx : tx.toAddr with
  | none => simp
  | some t =>
    by_cases h : 0 < tx.value
    · simp [h, Fact.isNativeTransferFact, Fact.isNativeFundFlow,
        mkNativeTransfer]
    · simp [h]

/-! ## C6: graceful degradation without a trace -/

/-- **C6**: for a transaction whose call-trace fetch returned absent,
the per-transaction processor still emits its `tx_enriched` and
`contract_call` facts, its `asset_transfer` facts are exactly those of
the native-value block and the decoded transfer logs, and it emits zero
trace-stream (`trace_call`/`trace_edge`) and zero
`internal_native_transfer` facts — processing completes rather than
failing. -/
theorem trace_absent_graceful (st : RunState) (tx : TxData)
    (h : tx.trace = none) :
    Fact.txEnriched (mkTxEnriched tx) ∈ (processTx st tx).2 ∧
    Fact.contractCall (mkContractCall tx) ∈ (processTx st tx).2 ∧
    (processTx st tx).2.filter Fact.isAssetTransferFact =
      (ethTransferFacts tx ++ erc20TransferFacts tx).filter
        Fact.isAssetTransferFact ∧
    (processTx st tx).2.countP Fact.isTraceStream = 0 ∧
    (processTx st tx).2.countP Fact.isInternal = 0 := by
  rw [processTx_unfold]
  have herc : (erc20Step tx (ethTransferStep tx
      (methodStatStep tx (profileTouchStep tx st))).1).2 =
      erc20TransferFacts tx := by
    rw [erc20Step_split]
  have htr := traceStep_none tx (erc20Step tx (ethTransferStep tx
    (methodStatStep tx (profileTouchStep tx st))).1).1 h
  have htr2 : (traceStep tx (erc20Step tx (ethTransferStep tx
      (methodStatStep tx (profileTouchStep tx st))).1).1).2 =
      ([] : List Fact) := by
    rw [htr]
  have htr1 : (traceStep tx (erc20Step tx (ethTransferStep tx
      (methodStatStep tx (profileTouchStep tx st))).1).1).1 =
      (erc20Step tx (ethTransferStep tx
        (methodStatStep tx (profileTouchStep tx st))).1).1 := by
    rw [htr]
  rw [ethTransferStep_facts, herc, htr2, htr1]
  have happr : (approvalsStep tx (erc20Step tx (ethTransferStep tx
      (methodStatStep tx (profileTouchStep tx st))).1).1).2 =
      tx.logs.enum.flatMap (approvalFactsOfLog tx) := by
    rw [approvalsStep_split]
  rw [happr]
  refine ⟨by simp, by simp, ?_, ?_, ?_⟩
  · have f0 : [Fact.txEnriched (mkTxEnriched tx),
        Fact.blockTxOrder (mkBlockTxOrder tx),
        Fact.contractCall (mkContractCall tx)].filter
          Fact.isAssetTransferFact = [] := rfl
    have frev := filter_nil_of_false (revertStep tx)
      (fun g hg => (revertStep_no_facts tx g hg).1)
    have fappr := filter_nil_of_false
      (tx.logs.enum.flatMap (approvalFactsOfLog tx))
      (fun g hg => (approvalFacts_no_facts tx g hg).1)
    have fuse := filter_nil_of_false
      (usageStep tx (approvalsStep tx (erc20Step tx (ethTransferStep tx
        (methodStatStep tx (profileTouchStep tx st))).1).1).1)
      (fun g hg => (usageStep_no_facts tx _ g hg).1)
    simp only [List.filter_append, f0, frev, fappr, fuse,
      List.filter_nil, List.append_nil, List.nil_append]
  · have c0 : [Fact.txEnriched (mkTxEnriched tx),
        Fact.blockTxOrder (mkBlockTxOrder tx),
        Fact.contractCall (mkContractCall tx)].countP
          Fact.isTraceStream = 0 := rfl
    have ceth := countP_zero_of_false (p := Fact.isTraceStream) (ethTransferFacts tx)
      (fun g hg => by
        obtain ⟨t, h2 | h2⟩ := ethFacts_shape tx g hg
        all_goals rw [h2]
        all_goals rfl)
    have cerc := countP_zero_of_false (p := Fact.isTraceStream) (erc20TransferFacts tx)
      (fun g hg => by
        obtain ⟨t, h2 | h2⟩ := erc20Facts_shape tx g hg
        all_goals rw [h2]
        all_goals rfl)
    have crev := countP_zero_of_false (p := Fact.isTraceStream) (revertStep tx)
      (fun g hg => by
        obtain ⟨r, h2⟩ := revertStep_shape tx g hg
        rw [h2]; rfl)
    have cappr := countP_zero_of_false (p := Fact.isTraceStream)
      (tx.logs.enum.flatMap (approvalFactsOfLog tx))
      (fun g hg => by
        rcases approvalFacts_shape tx g hg with ⟨r, h2⟩ | ⟨r, h2⟩
        all_goals rw [h2]
        all_goals rfl)
    have cuse := countP_zero_of_false (p := Fact.isTraceStream)
      (usageStep tx (approvalsStep tx (erc20Step tx (ethTransferStep tx
        (methodStatStep tx (profileTouchStep tx st))).1).1).1)
      (fun g hg => by
        obtain ⟨u, hu⟩ := usageStep_all tx _ g hg
        rw [hu]; rfl)
    simp only [List.countP_append, c0, ceth, cerc, crev, cappr, cuse,
      List.countP_nil]
  · have c0 : [Fact.txEnriched (mkTxEnriched tx),
        Fact.blockTxOrder (mkBlockTxOrder tx),
        Fact.contractCall (mkContractCall tx)].countP
          Fact.isInternal = 0 := rfl
    have ceth := countP_zero_of_false (ethTransferFacts tx)
      (ethFacts_no_internal tx)
    have cerc := countP_zero_of_false (p := Fact.isInternal) (erc20TransferFacts tx)
      (fun g hg => by
        obtain ⟨t, h2 | h2⟩ := erc20Facts_shape tx g hg
        all_goals rw [h2]
        all_goals rfl)
    have crev := countP_zero_of_false (revertStep tx)
      (fun g hg => (revertStep_no_facts tx g hg).2)
    have cappr := countP_zero_of_false
      (tx.logs.enum.flatMap (approvalFactsOfLog tx))
      (fun g hg => (approvalFacts_no_facts tx g hg).2)
    have cuse := countP_zero_of_false
      (usageStep tx (approvalsStep tx (erc20Step tx (ethTransferStep tx
        (methodStatStep tx (profileTouchStep tx st))).1).1).1)
      (fun g hg => (usageStep_no_facts tx _ g hg).2)
    simp only [List.countP_append, c0, ceth, cerc, crev, cappr, cuse,
      List.countP_nil]

/-- Witness for C6: the concrete traceless transaction `logOnlyTx`
processed from the empty accumulators. -/
theorem trace_absent_graceful_witness :
    logOnlyTx.trace = none ∧
    (Fact.txEnriched (mkTxEnriched logOnlyTx) ∈
        (processTx initRunState logOnlyTx).2 ∧
     Fact.contractCall (mkContractCall logOnlyTx) ∈
        (processTx initRunState logOnlyTx).2 ∧
     (processTx initRunState logOnlyTx).2.filter Fact.isAssetTransferFact =
       (ethTransferFacts logOnlyTx ++ erc20TransferFacts logOnlyTx).filter
         Fact.isAssetTransferFact ∧
     (processTx initRunState logOnlyTx).2.countP Fact.isTraceStream = 0 ∧
     (processTx initRunState logOnlyTx).2.countP Fact.isInternal = 0) :=
  ⟨rfl, trace_absent_graceful initRunState logOnlyTx rfl⟩

/-! ## C10: the native-transfer guard -/

/-- **C10**: per processed transaction, a native `asset_transfer` fact
is emitted exactly when `tx.to` is present and the value is strictly
positive — and likewise its `fund_flow_edge` projection; the guard does
not consult the status, so a reverted value transfer still emits, and a
contract creation (`to = null`) never does.  The ETH-block profile
update moves each address's `eth_in_wei`/`eth_out_wei` by exactly the
amounts of those same guarded facts. -/
theorem native_transfer_guard (st : RunState) (tx : TxData) :
    ((processTx st tx).2.any Fact.isNativeTransferFact = true ↔
      tx.toAddr.isSome = true ∧ 0 < tx.value) ∧
    ((processTx st tx).2.any Fact.isNativeFundFlow = true ↔
      tx.toAddr.isSome = true ∧ 0 < tx.value) ∧
    (∀ a, ethInOf (ethTransferStep tx st).1 a =
        ethInOf st a + natTransferIn (ethTransferFacts tx) a ∧
      ethOutOf (ethTransferStep tx st).1 a =
        ethOutOf st a + natTransferOut (ethTransferFacts tx) a) := by
  rw [processTx_unfold]
  have herc : (erc20Step tx (ethTransferStep tx
      (methodStatStep tx (profileTouchStep tx st))).1).2 =
      erc20TransferFacts tx := by
    rw [erc20Step_split]
  have happr : (approvalsStep tx (traceStep tx (erc20Step tx
      (ethTransferStep tx
        (methodStatStep tx (profileTouchStep tx st))).1).1).1).2 =
      tx.logs.enum.flatMap (approvalFactsOfLog tx) := by
    rw [approvalsStep_split]
  rw [ethTransferStep_facts, herc, happr]
  have h0a : [Fact.txEnriched (mkTxEnriched tx),
      Fact.blockTxOrder (mkBlockTxOrder tx),
      Fact.contractCall (mkContractCall tx)].any
        Fact.isNativeTransferFact = false := rfl
  have h0b : [Fact.txEnriched (mkTxEnriched tx),
      Fact.blockTxOrder (mkBlockTxOrder tx),
      Fact.contractCall (mkContractCall tx)].any
        Fact.isNativeFundFlow = false := rfl
  have hea := any_false_of_all (erc20TransferFacts tx)
    (fun g hg => (erc20Facts_not_native tx g hg).1)
  have heb := any_false_of_all (erc20TransferFacts tx)
    (fun g hg => (erc20Facts_not_native tx g hg).2)
  have hta := any_false_of_all (traceStep tx (erc20Step tx
      (ethTransferStep tx
        (methodStatStep tx (profileTouchStep tx st))).1).1).2
    (fun g hg => (traceStep_not_native tx _ g hg).1)
  have htb := any_false_of_all (traceStep tx (erc20Step tx
      (ethTransferStep tx
        (methodStatStep tx (profileTouchStep tx st))).1).1).2
    (fun g hg => (traceStep_not_native tx _ g hg).2)
  have hra := any_false_of_all (revertStep tx)
    (fun g hg => (revertFacts_not_native tx g hg).1)
  have hrb := any_false_of_all (revertStep tx)
    (fun g hg => (revertFacts_not_native tx g hg).2)
  have haa := any_false_of_all
    (tx.logs.enum.flatMap (approvalFactsOfLog tx))
    (fun g hg => (approvalFacts_not_native tx g hg).1)
  have hab := any_false_of_all
    (tx.logs.enum.flatMap (approvalFactsOfLog tx))
    (fun g hg => (approvalFacts_not_native tx g hg).2)
  have hua := any_false_of_all (usageStep tx (approvalsStep tx
      (traceStep tx (erc20Step tx (ethTransferStep tx
        (methodStatStep tx (profileTouchStep tx st))).1).1).1).1)
    (fun g hg => (usageFacts_not_native tx _ g hg).1)
  have hub := any_false_of_all (usageStep tx (approvalsStep tx
      (traceStep tx (erc20Step tx (ethTransferStep tx
        (methodStatStep tx (profileTouchStep tx st))).1).1).1).1)
    (fun g hg => (usageFacts_not_native tx _ g hg).2)
  refine ⟨?_, ?_, fun a => ethTransferStep_eth tx st a⟩
  · simp only [List.any_append, h0a, hea, hta, hra, haa, hua,
      Bool.false_or, Bool.or_false]
    exact (ethFacts_any_native tx).1
  · simp only [List.any_append, h0b, heb, htb, hrb, hab, hub,
      Bool.false_or, Bool.or_false]
    exact (ethFacts_any_native tx).2

/-! ## Well-formedness of the method-stat map across the run -/

theorem statTouchTs_good (ts : Option Nat) :
    ∀ s, (statTouchTs ts s).toAddr = s.toAddr ∧
      (statTouchTs ts s).method_id = s.method_id ∧
      (statTouchTs ts s).callers = s.callers := by
  intro s
  cases ts with
  | none => exact ⟨rfl, rfl, rfl⟩
  | some t =>
    unfold statTouchTs
    repeat' split
    all_goals exact ⟨rfl, rfl, rfl⟩

theorem statUpd_good (tx : TxData) : statUpdGood (statUpd tx) := by
  intro s
  simp only [statUpd]
  by_cases h : statusString tx = "success"
  all_goals simp only [h, if_true, if_false]
  all_goals exact ⟨(statTouchTs_good tx.timestamp _).1.trans rfl,
    (statTouchTs_good tx.timestamp _).2.1.trans rfl,
    fun hn => by
      rw [(statTouchTs_good tx.timestamp _).2.2]
      exact setAdd_nodup _ _ hn⟩

theorem statGood_alUpdate (m : List ((Addr × List Nat) × MethodStat))
    (t : Addr) (mid : List Nat) (f : MethodStat → MethodStat)
    (hf : statUpdGood f)
    (h1 : (m.map Prod.fst).Nodup)
    (h2 : ∀ kv ∈ m,
      (kv.2.toAddr, kv.2.method_id) = kv.1 ∧ kv.2.callers.Nodup) :
    ((alUpdate (t, mid) (initMethodStat t mid) f m).map Prod.fst).Nodup ∧
    ∀ kv ∈ alUpdate (t, mid) (initMethodStat t mid) f m,
      (kv.2.toAddr, kv.2.method_id) = kv.1 ∧ kv.2.callers.Nodup := by
  refine ⟨alUpdate_keys_nodup _ _ f m h1, ?_⟩
  intro kv hkv
  rcases alUpdate_mem _ _ f m kv hkv with hmem | ⟨hk, hv⟩
  · exact h2 kv hmem
  · rcases hv with hv | ⟨v, hvm, hv⟩
    · obtain ⟨ha, hm, hc⟩ := hf (initMethodStat t mid)
      rw [hv, hk]
      constructor
      · rw [ha, hm]
        rfl
      · exact hc List.nodup_nil
    · obtain ⟨ha, hm, hc⟩ := hf v
      obtain ⟨hva, hvct⟩ := h2 ((t, mid), v) hvm
      rw [hv, hk]
      constructor
      · rw [ha, hm]
        exact hva
      · exact hc hvct

theorem StatOK_of_stats_eq (s1 s2 : RunState)
    (h : s2.methodStats = s1.methodStats) (hok : StatOK s1) : StatOK s2 := by
  unfold StatOK at hok ⊢
  rw [h]
  exact hok

theorem StatOK_methodStatStep (tx : TxData) (st : RunState)
    (h : StatOK st) : StatOK (methodStatStep tx st) := by
  obtain ⟨h1, h2⟩ := h
  simp only [methodStatStep]
  cases htx : tx.toAddr with
  | none => exact ⟨h1, h2⟩
  | some t =>
    show StatOK (if methodIdOf tx ≠ [] then { st with methodStats := alUpdate (t, methodIdOf tx) (initMethodStat t (methodIdOf tx)) (statUpd tx) st.methodStats } else st)
    by_cases hm : methodIdOf tx ≠ []
    · rw [if_pos hm]
      have hu := statGood_alUpdate st.methodStats t (methodIdOf tx)
        (statUpd tx) (statUpd_good tx) h1 h2
      exact ⟨hu.1, hu.2⟩
    · rw [if_neg hm]
      exact ⟨h1, h2⟩

theorem StatOK_processTx (st : RunState) (tx : TxData)
    (h : StatOK st) : StatOK (processTx st tx).1 := by
  rw [processTx_unfold]
  have s1 := StatOK_of_stats_eq st _ (profileTouchStep_frame tx st).1 h
  have s2 := StatOK_methodStatStep tx _ s1
  have s3 := StatOK_of_stats_eq _ _ (ethTransferStep_frame tx _).1 s2
  have s4 : StatOK (erc20Step tx (ethTransferStep tx
      (methodStatStep tx (profileTouchStep tx st))).1).1 := by
    rw [erc20Step_split]
    exact StatOK_of_stats_eq _ _ (erc20Fold_frame (transfersOf tx) _).1 s3
  have s5 := StatOK_of_stats_eq _ _ (traceStep_frame tx _).1 s4
  have s6 : StatOK (approvalsStep tx (traceStep tx (erc20Step tx
      (ethTransferStep tx
        (methodStatStep tx (profileTouchStep tx st))).1).1).1).1 := by
    rw [approvalsStep_split]
    exact StatOK_of_stats_eq _ _ (approvalsFold_frame tx _ _).2 s5
  exact s6

theorem StatOK_initRunState : StatOK initRunState := by
  unfold StatOK
  exact ⟨List.nodup_nil, fun kv hkv => absurd hkv (List.not_mem_nil kv)⟩

theorem StatOK_deriveFold (txs : List TxData) :
    ∀ (s : RunState) (acc : List Fact), StatOK s →
      StatOK (txs.foldl deriveStep (s, acc)).1 := by
  induction txs with
  | nil => intro s acc h; exact h
  | cons tx rest ih =>
    intro s acc h
    simp only [List.foldl_cons]
    have hstep : deriveStep (s, acc) tx =
        ((processTx s tx).1, acc ++ (processTx s tx).2) := rfl
    rw [hstep]
    exact ih _ _ (StatOK_processTx s tx h)

theorem StatOK_runDerive (txs : List TxData) : StatOK (runDerive txs).1 := by
  rw [runDerive_eq]
  exact StatOK_deriveFold txs initRunState [] StatOK_initRunState

/-! ## C9: the shape of the flushed aggregates -/

theorem map_eq_of_mem {α β : Type} (l : List α) (f g : α → β)
    (h : ∀ a ∈ l, f a = g a) : l.map f = l.map g := by
  induction l with
  | nil => rfl
  | cons x rest ih =>
    simp [h x (List.mem_cons_self x rest),
      ih (fun a ha => h a (List.mem_cons_of_mem x ha))]

theorem filterMap_profileR_profs (m : List (Addr × Profile)) :
    (m.map (fun p => Fact.addressProfile p.2)).filterMap Fact.profileR =
      m.map (fun p => p.2) := by
  induction m with
  | nil => rfl
  | cons kv rest ih => simp [List.filterMap_cons, Fact.profileR, ih]

theorem filterMap_profileR_stats
    (m : List ((Addr × List Nat) × MethodStat)) :
    (m.map (fun p => Fact.methodStat (serializeStat p.2))).filterMap
      Fact.profileR = [] := by
  induction m with
  | nil => rfl
  | cons kv rest ih => simp [List.filterMap_cons, Fact.profileR, ih]

theorem filterMap_statR_profs (m : List (Addr × Profile)) :
    (m.map (fun p => Fact.addressProfile p.2)).filterMap Fact.statR =
      [] := by
  induction m with
  | nil => rfl
  | cons kv rest ih => simp [List.filterMap_cons, Fact.statR, ih]

theorem filterMap_statR_stats (m : List ((Addr × List Nat) × MethodStat)) :
    (m.map (fun p => Fact.methodStat (serializeStat p.2))).filterMap
      Fact.statR = m.map (fun p => serializeStat p.2) := by
  induction m with
  | nil => rfl
  | cons kv rest ih => simp [List.filterMap_cons, Fact.statR, ih]

theorem filterMap_none_of_no_aggregate (l : List Fact)
    (h : ∀ g ∈ l, Fact.isAggregate g = false) :
    l.filterMap Fact.profileR = [] ∧ l.filterMap Fact.statR = [] := by
  induction l with
  | nil => exact ⟨rfl, rfl⟩
  | cons f rest ih =>
    have hf := h f (List.mem_cons_self f rest)
    have hr := ih (fun g hg => h g (List.mem_cons_of_mem f hg))
    cases f
    case addressProfile r => simp [Fact.isAggregate] at hf
    case methodStat r => simp [Fact.isAggregate] at hf
    all_goals exact ⟨by simp [List.filterMap_cons, Fact.profileR, hr.1],
      by simp [List.filterMap_cons, Fact.statR, hr.2]⟩

/-- **C9** (corrected): the end-of-run flush emits one `address_profile`
record per distinct address and one `method_stat` record per distinct
`(callee, selector)` pair, and every flushed `call_targets` set is a
duplicate-free (insertion-ordered) sequence.  (The seen-bounds fields
are *not* always non-null: see the counterexample.) -/
theorem flush_distinct_keys (txs : List TxData) :
    (((runPipeline txs).filterMap Fact.profileR).map
        (fun p => p.address)).Nodup ∧
    (((runPipeline txs).filterMap Fact.statR).map
        (fun s => (s.toAddr, s.method_id))).Nodup ∧
    ∀ p ∈ (runPipeline txs).filterMap Fact.profileR,
      p.call_targets.Nodup := by
  have hokP := ProfOK_runDerive txs
  have hokS := StatOK_runDerive txs
  have hder := filterMap_none_of_no_aggregate (runDerive txs).2
    (runDerive_no_aggregates txs)
  unfold runPipeline flushFacts
  simp only [List.filterMap_append, hder.1, hder.2,
    filterMap_profileR_profs, filterMap_profileR_stats,
    filterMap_statR_profs, filterMap_statR_stats,
    List.nil_append, List.append_nil]
  refine ⟨?_, ?_, ?_⟩
  · rw [List.map_map]
    simp only [Function.comp_def]
    rw [map_eq_of_mem (runDerive txs).1.prof (fun kv => kv.2.address)
      Prod.fst (fun kv hkv => (hokP.2 kv hkv).1)]
    exact hokP.1
  · rw [List.map_map]
    simp only [Function.comp_def]
    rw [map_eq_of_mem (runDerive txs).1.methodStats
      (fun kv => ((serializeStat kv.2).toAddr,
        (serializeStat kv.2).method_id))
      Prod.fst (fun kv hkv => (hokS.2 kv hkv).1)]
    exact hokS.1
  · intro p hp
    obtain ⟨kv, hkv, hpe⟩ := List.mem_map.mp hp
    rw [← hpe]
    exact (hokP.2 kv hkv).2

/-- **C9** counterexample to the never-null part: in the run of
`logOnlyTx` the ERC20 recipient `0xcc…cc` is profiled (it exists in the
flush) with its seen-bounds fields still `null` — `getProf` initializes
`first_seen_ts`/`last_seen_ts`/`first_seen_block`/`last_seen_block` to
`null` and nothing in the run updates them for an address that only
appears as a token-transfer counterparty. -/
theorem flush_null_bounds_counterexample :
    Fact.addressProfile (profileOf (runDerive [logOnlyTx]).1
        "0xcccccccccccccccccccccccccccccccccccccccc") ∈
      runPipeline [logOnlyTx] ∧
    (profileOf (runDerive [logOnlyTx]).1
        "0xcccccccccccccccccccccccccccccccccccccccc").first_seen_ts =
      none ∧
    (profileOf (runDerive [logOnlyTx]).1
        "0xcccccccccccccccccccccccccccccccccccccccc").last_seen_ts =
      none ∧
    (profileOf (runDerive [logOnlyTx]).1
        "0xcccccccccccccccccccccccccccccccccccccccc").first_seen_block =
      none := by
  refine ⟨by decide, by decide, by decide, by decide⟩

/-! ## C2: soundness of the allowance-usage linkage -/

theorem soundFrom_of_witnessed (fs : List Fact) :
    ∀ (seen : List Fact),
      (∀ g ∈ fs, ∀ u, g = Fact.allowanceUsage u →
        ∃ f ∈ seen, approvalMatches u f = true) →
      soundFrom seen fs := by
  induction fs with
  | nil => intro seen _; trivial
  | cons f rest ih =>
    intro seen h
    simp only [soundFrom]
    constructor
    · exact fun u hu => h f (List.mem_cons_self f rest) u hu
    · refine ih (seen ++ [f]) ?_
      intro g hg u hu
      obtain ⟨f0, hf0, hm⟩ := h g (List.mem_cons_of_mem f hg) u hu
      exact ⟨f0, List.mem_append_left _ hf0, hm⟩

theorem soundFrom_of_no_usage (fs : List Fact) (seen : List Fact)
    (h : ∀ g ∈ fs, ∀ u, g ≠ Fact.allowanceUsage u) :
    soundFrom seen fs :=
  soundFrom_of_witnessed fs seen
    (fun g hg u hu => absurd hu (h g hg u))

theorem soundFrom_split (xs : List Fact) :
    ∀ (seen ys : List Fact), soundFrom seen xs →
      soundFrom (seen ++ xs) ys → soundFrom seen (xs ++ ys) := by
  induction xs with
  | nil =>
    intro seen ys _ hy
    simpa using hy
  | cons f rest ih =>
    intro seen ys hx hy
    simp only [soundFrom] at hx ⊢
    refine ⟨hx.1, ?_⟩
    refine ih (seen ++ [f]) ys hx.2 ?_
    have he : (seen ++ [f]) ++ rest = seen ++ f :: rest := by simp
    rw [he]
    exact hy

theorem soundFrom_extract (fs : List Fact) :
    ∀ (seen : List Fact), soundFrom seen fs →
      ∀ (pre : List Fact) (u : AllowanceUsage) (post : List Fact),
        fs = pre ++ Fact.allowanceUsage u :: post →
        ∃ f ∈ seen ++ pre, approvalMatches u f = true := by
  induction fs with
  | nil =>
    intro seen _ pre u post he
    exact absurd he (by simp)
  | cons g rest ih =>
    intro seen h pre u post he
    simp only [soundFrom] at h
    cases pre with
    | nil =>
      simp only [List.nil_append, List.cons.injEq] at he
      obtain ⟨f, hf, hm⟩ := h.1 u he.1
      exact ⟨f, by simpa using hf, hm⟩
    | cons p pre2 =>
      simp only [List.cons_append, List.cons.injEq] at he
      obtain ⟨f, hf, hm⟩ := ih (seen ++ [g]) h.2 pre2 u post he.2
      refine ⟨f, ?_, hm⟩
      rw [he.1] at hf
      have he2 : (seen ++ [p]) ++ pre2 = seen ++ p :: pre2 := by simp
      rw [← he2]
      exact hf

theorem RegistryOK_mono (st : RunState) (seen1 seen2 : List Fact)
    (hsub : ∀ f ∈ seen1, f ∈ seen2) (h : RegistryOK st seen1) :
    RegistryOK st seen2 := by
  intro kv hkv
  obtain ⟨a, ha, hrest⟩ := h kv hkv
  exact ⟨a, hsub _ ha, hrest⟩

theorem RegistryOK_of_approvals_eq (s1 s2 : RunState) (seen : List Fact)
    (h : s2.approvals = s1.approvals) (hok : RegistryOK s1 seen) :
    RegistryOK s2 seen := by
  intro kv hkv
  rw [h] at hkv
  exact hok kv hkv

theorem RegistryOK_initRunState (seen : List Fact) :
    RegistryOK initRunState seen :=
  fun kv hkv => absurd hkv (List.not_mem_nil kv)

theorem RegistryOK_regStep (tx : TxData) (s : RunState)
    (pair : Nat × LogRec) (seen : List Fact) (h : RegistryOK s seen) :
    RegistryOK (approvalsRegStep tx s pair)
      (seen ++ approvalFactsOfLog tx pair) := by
  unfold approvalsRegStep approvalFactsOfLog
  cases hd : decodeApprovalEvent pair.2 with
  | none =>
    exact RegistryOK_mono s seen _ (fun f hf => List.mem_append_left _ hf) h
  | some a =>
    intro kv hkv
    simp only at hkv
    rcases alUpdate_mem _ _ _ _ kv hkv with hmem | ⟨hk, hv⟩
    · obtain ⟨a0, ha0, hrest⟩ := h kv hmem
      exact ⟨a0, List.mem_append_left _ ha0, hrest⟩
    · have hv2 : kv.2 = (⟨a.value, tx.txHash⟩ : ApprovalEntry) := by
        rcases hv with hv | ⟨v, _, hv⟩
        · exact hv
        · exact hv
      refine ⟨{ tx_hash := tx.txHash
                block_number := tx.blockNumber
                timestamp := tx.timestamp
                token := pair.2.address
                owner := a.owner
                spender := a.spender
                value := a.value
                log_index := pair.1 }, ?_, ?_, ?_, ?_, ?_, ?_⟩
      · refine List.mem_append_right _ ?_
        exact List.mem_cons_self _ _
      · rw [hk]
      · rw [hk]
      · rw [hk]
      · rw [hv2]
      · rw [hv2]

theorem RegistryOK_fold (tx : TxData) (l : List (Nat × LogRec)) :
    ∀ (s : RunState) (seen : List Fact), RegistryOK s seen →
      RegistryOK (l.foldl (approvalsRegStep tx) s)
        (seen ++ l.flatMap (approvalFactsOfLog tx)) := by
  induction l with
  | nil =>
    intro s seen h
    simpa using h
  | cons pair rest ih =>
    intro s seen h
    simp only [List.foldl_cons, List.flatMap_cons]
    rw [← List.append_assoc]
    exact ih (approvalsRegStep tx s pair)
      (seen ++ approvalFactsOfLog tx pair)
      (RegistryOK_regStep tx s pair seen h)

/-- Every usage fact the ALLOWANCE USAGE block emits is matched by an
`approval` fact already seen, provided the registry is witnessed by the
seen facts. -/
theorem usage_sound (tx : TxData) (st2 : RunState) (seen2 : List Fact)
    (h : RegistryOK st2 seen2) :
    ∀ g ∈ usageStep tx st2, ∀ u, g = Fact.allowanceUsage u →
      ∃ f ∈ seen2, approvalMatches u f = true := by
  intro g hg u hu
  unfold usageStep at hg
  by_cases hsel : methodIdOf tx = TRANSFER_FROM_SELECTOR
  · rw [if_pos hsel] at hg
    rcases List.mem_filterMap.mp hg with ⟨t, ht, hsome⟩
    cases hf : (st2.approvals.find? (usageKeyMatch t tx.fromAddr)) with
    | none => rw [hf] at hsome; simp at hsome
    | some kv =>
      rw [hf] at hsome
      have hg2 := Option.some.inj hsome
      have hru := hg2.trans hu
      injection hru with hru2
      have hmem := List.mem_of_find?_eq_some hf
      have hpred := List.find?_some hf
      simp only [usageKeyMatch, Bool.and_eq_true, beq_iff_eq] at hpred
      obtain ⟨a0, ha0, h1, h2, h3, h4, h5⟩ := h kv hmem
      refine ⟨Fact.approval a0, ha0, ?_⟩
      rw [← hru2]
      simp only [approvalMatches, Bool.and_eq_true, beq_iff_eq]
      refine ⟨⟨⟨⟨?_, ?_⟩, ?_⟩, ?_⟩, ?_⟩
      · rw [h1]
        exact hpred.1.1
      · rw [h2]
        exact hpred.1.2
      · rw [h3]
        exact hpred.2
      · exact h4
      · exact h5
  · rw [if_neg hsel] at hg
    simp at hg

theorem fact_not_usage_of_flow (g : Fact)
    (h : g.isTraceEdge = true ∨ g.isInternal = true) :
    ∀ u, g ≠ Fact.allowanceUsage u := by
  cases g
  case allowanceUsage r => simp [Fact.isTraceEdge, Fact.isInternal] at h
  all_goals exact fun u heq => Fact.noConfusion heq

theorem traceStep_not_usage (tx : TxData) (st : RunState) :
    ∀ g ∈ (traceStep tx st).2, ∀ u, g ≠ Fact.allowanceUsage u := by
  intro g hg
  unfold traceStep at hg
  cases htr : tx.trace with
  | none => simp only [htr] at hg; simp at hg
  | some root =>
    simp only [htr] at hg
    rcases List.mem_cons.mp hg with h2 | h2
    · rw [h2]
      exact fun u heq => Fact.noConfusion heq
    · exact fact_not_usage_of_flow g (walkNode_shape tx root 0 st g h2)

/-- One transaction keeps the usage linkage sound: its emitted facts are
sound relative to the already-seen facts, and the updated registry stays
witnessed by the extended fact list. -/
theorem processTx_sound (st : RunState) (tx : TxData) (seen : List Fact)
    (h : RegistryOK st seen) :
    soundFrom seen (processTx st tx).2 ∧
    RegistryOK (processTx st tx).1 (seen ++ (processTx st tx).2) := by
  rw [processTx_unfold]
  have herc : (erc20Step tx (ethTransferStep tx (methodStatStep tx (profileTouchStep tx st))).1).2 = erc20TransferFacts tx := by
    rw [erc20Step_split]
  have happr : (approvalsStep tx (traceStep tx (erc20Step tx (ethTransferStep tx (methodStatStep tx (profileTouchStep tx st))).1).1).1).2 =
      tx.logs.enum.flatMap (approvalFactsOfLog tx) := by
    rw [approvalsStep_split]
  rw [ethTransferStep_facts, herc, happr]
  have hreg1 := RegistryOK_of_approvals_eq st _ seen
    (profileTouchStep_frame tx st).2 h
  have hreg2 := RegistryOK_of_approvals_eq _ _ seen
    (methodStatStep_frame tx _).2 hreg1
  have hreg3 := RegistryOK_of_approvals_eq _ _ seen
    (ethTransferStep_frame tx _).2 hreg2
  have hreg4 : RegistryOK (erc20Step tx (ethTransferStep tx (methodStatStep tx (profileTouchStep tx st))).1).1 seen := by
    rw [erc20Step_split]
    exact RegistryOK_of_approvals_eq _ _ seen
      (erc20Fold_frame (transfersOf tx) _).2 hreg3
  have hreg5 := RegistryOK_of_approvals_eq _ _ seen
    (traceStep_frame tx _).2 hreg4
  have happr1 : (approvalsStep tx (traceStep tx (erc20Step tx (ethTransferStep tx (methodStatStep tx (profileTouchStep tx st))).1).1).1).1 =
      tx.logs.enum.foldl (approvalsRegStep tx) (traceStep tx (erc20Step tx (ethTransferStep tx (methodStatStep tx (profileTouchStep tx st))).1).1).1 := by
    rw [approvalsStep_split]
  have hregF : RegistryOK (approvalsStep tx (traceStep tx (erc20Step tx (ethTransferStep tx (methodStatStep tx (profileTouchStep tx st))).1).1).1).1
      (seen ++ tx.logs.enum.flatMap (approvalFactsOfLog tx)) := by
    rw [happr1]
    exact RegistryOK_fold tx tx.logs.enum (traceStep tx (erc20Step tx (ethTransferStep tx (methodStatStep tx (profileTouchStep tx st))).1).1).1 seen hreg5
  have hnoX : ∀ g ∈ [Fact.txEnriched (mkTxEnriched tx),
      Fact.blockTxOrder (mkBlockTxOrder tx),
      Fact.contractCall (mkContractCall tx)] ++
      ethTransferFacts tx ++ erc20TransferFacts tx ++
      (traceStep tx (erc20Step tx (ethTransferStep tx (methodStatStep tx (profileTouchStep tx st))).1).1).2 ++ revertStep tx ++
      tx.logs.enum.flatMap (approvalFactsOfLog tx),
      ∀ u, g ≠ Fact.allowanceUsage u := by
    intro g hg
    simp only [List.mem_append] at hg
    rcases hg with (((((hg | hg) | hg) | hg) | hg) | hg)
    · simp only [List.mem_cons] at hg
      rcases hg with h2 | h2 | h2
      · rw [h2]; exact fun u heq => Fact.noConfusion heq
      · rw [h2]; exact fun u heq => Fact.noConfusion heq
      · simp at h2
        rw [h2]; exact fun u heq => Fact.noConfusion heq
    · obtain ⟨t, h2 | h2⟩ := ethFacts_shape tx g hg
      all_goals rw [h2]
      all_goals exact fun u heq => Fact.noConfusion heq
    · obtain ⟨t, h2 | h2⟩ := erc20Facts_shape tx g hg
      all_goals rw [h2]
      all_goals exact fun u heq => Fact.noConfusion heq
    · exact traceStep_not_usage tx _ g hg
    · obtain ⟨r, h2⟩ := revertStep_shape tx g hg
      rw [h2]; exact fun u heq => Fact.noConfusion heq
    · rcases approvalFacts_shape tx g hg with ⟨r, h2⟩ | ⟨r, h2⟩
      all_goals rw [h2]
      all_goals exact fun u heq => Fact.noConfusion heq
  have hregX : RegistryOK (approvalsStep tx (traceStep tx (erc20Step tx (ethTransferStep tx (methodStatStep tx (profileTouchStep tx st))).1).1).1).1
      (seen ++ ([Fact.txEnriched (mkTxEnriched tx),
        Fact.blockTxOrder (mkBlockTxOrder tx),
        Fact.contractCall (mkContractCall tx)] ++
        ethTransferFacts tx ++ erc20TransferFacts tx ++
        (traceStep tx (erc20Step tx (ethTransferStep tx (methodStatStep tx (profileTouchStep tx st))).1).1).2 ++ revertStep tx ++
        tx.logs.enum.flatMap (approvalFactsOfLog tx))) := by
    refine RegistryOK_mono _ _ _ ?_ hregF
    intro f hf
    rcases List.mem_append.mp hf with h2 | h2
    · exact List.mem_append_left _ h2
    · refine List.mem_append_right _ ?_
      simp [List.mem_append, h2]
  constructor
  · refine soundFrom_split _ seen _ (soundFrom_of_no_usage _ seen hnoX) ?_
    refine soundFrom_of_witnessed _ _ ?_
    intro g hg u hu
    exact usage_sound tx (approvalsStep tx (traceStep tx (erc20Step tx (ethTransferStep tx (methodStatStep tx (profileTouchStep tx st))).1).1).1).1 _ hregX g hg u hu
  · refine RegistryOK_mono _ _ _ ?_ hregX
    intro f hf
    rcases List.mem_append.mp hf with h2 | h2
    · exact List.mem_append_left _ h2
    · exact List.mem_append_right _ (List.mem_append_left _ h2)

theorem flushFacts_not_usage (st : RunState) :
    ∀ g ∈ flushFacts st, ∀ u, g ≠ Fact.allowanceUsage u := by
  intro g hg
  unfold flushFacts at hg
  rcases List.mem_append.mp hg with h | h
  · obtain ⟨p, hp, hpe⟩ := List.mem_map.mp h
    rw [← hpe]
    exact fun u heq => Fact.noConfusion heq
  · obtain ⟨p, hp, hpe⟩ := List.mem_map.mp h
    rw [← hpe]
    exact fun u heq => Fact.noConfusion heq

theorem deriveFold_sound (txs : List TxData) :
    ∀ (s : RunState) (seen : List Fact), RegistryOK s seen →
      soundFrom seen (txs.foldl deriveStep (s, [])).2 ∧
      RegistryOK (txs.foldl deriveStep (s, [])).1
        (seen ++ (txs.foldl deriveStep (s, [])).2) := by
  induction txs with
  | nil =>
    intro s seen h
    exact ⟨trivial, by simpa using h⟩
  | cons tx rest ih =>
    intro s seen h
    simp only [List.foldl_cons]
    have hstep0 : deriveStep (s, []) tx =
        ((processTx s tx).1, (processTx s tx).2) := rfl
    rw [hstep0]
    obtain ⟨hacc1, hacc2⟩ :=
      deriveFold_acc rest (processTx s tx).1 (processTx s tx).2
    rw [hacc1, hacc2]
    obtain ⟨hsound, hreg⟩ := processTx_sound s tx seen h
    obtain ⟨hsound2, hreg2⟩ := ih (processTx s tx).1
      (seen ++ (processTx s tx).2) hreg
    constructor
    · exact soundFrom_split _ seen _ hsound hsound2
    · rw [← List.append_assoc]
      exact hreg2

/-- The whole output stream of a run is usage-sound from an empty
history. -/
theorem runPipeline_sound (txs : List TxData) :
    soundFrom [] (runPipeline txs) := by
  unfold runPipeline
  have hd : soundFrom [] (runDerive txs).2 ∧
      RegistryOK (runDerive txs).1 ([] ++ (runDerive txs).2) := by
    rw [runDerive_eq]
    exact deriveFold_sound txs initRunState [] (RegistryOK_initRunState [])
  refine soundFrom_split _ [] _ hd.1 ?_
  exact soundFrom_of_no_usage _ _ (flushFacts_not_usage _)

/-- **C2**: wherever an `allowance_usage` record appears in a run's
output, an `approval` record matching its `(token, owner, spender)`
triple case-insensitively — carrying the very approved amount and
approval transaction hash the usage reports — occurs strictly earlier
in the output; a usage never references an approval only processed
later, and with no matching registry entry no usage fact is emitted at
all. -/
theorem allowance_usage_sound (txs : List TxData) (pre post : List Fact)
    (u : AllowanceUsage)
    (h : runPipeline txs = pre ++ Fact.allowanceUsage u :: post) :
    ∃ f ∈ pre, approvalMatches u f = true := by
  obtain ⟨f, hf, hm⟩ := soundFrom_extract (runPipeline txs) []
    (runPipeline_sound txs) pre u post h
  exact ⟨f, by simpa using hf, hm⟩

/-- Witness for C2: the run of `transferFromTx` emits its one
`allowance_usage` record at position 7, and a matching `approval` fact
occurs among the seven earlier records. -/
theorem allowance_usage_sound_witness :
    (runPipeline [transferFromTx] =
      (runPipeline [transferFromTx]).take 7 ++
        Fact.allowanceUsage usageRecordExample ::
        (runPipeline [transferFromTx]).drop 8) ∧
    ∃ f ∈ (runPipeline [transferFromTx]).take 7,
      approvalMatches usageRecordExample f = true :=
  ⟨by decide,
   allowance_usage_sound [transferFromTx]
     ((runPipeline [transferFromTx]).take 7)
     ((runPipeline [transferFromTx]).drop 8)
     usageRecordExample
     (by decide)⟩

end Pipeline
